/-
Verification of the AgentBridge state-transition engine and its
discovery/matchmaking algorithm.  The definitions below are a shallow
embedding of the contract handlers (agent_register, agent_update,
agent_unregister, match_create, match_propose, match_accept,
match_complete, channel_join, channel_leave, message_record) and of the
read-only discover query.  JavaScript objects are modelled as ordered
association lists keyed by strings, JavaScript numbers as rationals
(proficiencies, scores, ratings) or integers (timestamps, counters), and
thrown domain errors as an Except result.
-/
import Mathlib

set_option maxRecDepth 100000
set_option maxHeartbeats 1000000

namespace AgentBridge

/-- An insertion-ordered string-keyed map, as a JavaScript object. -/
abbrev AList (α : Type) := List (String × α)

/-- Read a key from the map (first matching entry). -/
def getk {α : Type} : AList α → String → Option α
  | [], _ => none
  | (k, v) :: t, key => if k = key then some v else getk t key

/-- Write a key: replace the first matching entry in place, otherwise
append the new entry at the end (JavaScript object assignment). -/
def setk {α : Type} : AList α → String → α → AList α
  | [], key, v => [(key, v)]
  | (k, w) :: t, key, v =>
      if k = key then (key, v) :: t else (k, w) :: setk t key v

/-- Delete a key (JavaScript delete). -/
def delk {α : Type} (m : AList α) (key : String) : AList α :=
  m.filter (fun p => p.1 ≠ key)

/-- Object.values: the values in insertion order. -/
def valuesOf {α : Type} (m : AList α) : List α := m.map (·.2)

/-- Remove the first occurrence of an element from a list; used to model
Array.prototype.splice after indexOf. -/
def removeFirst : List String → String → List String
  | [], _ => []
  | a :: t, x => if a = x then t else a :: removeFirst t x

/-- Append an element if it is not already present; used to model a push
guarded by Array.prototype.includes, and Set insertion order. -/
def addUnique (l : List String) (x : String) : List String :=
  if x ∈ l then l else l ++ [x]

/-- Clamp a rational into the interval from 0 to 1, as
Math.min(1, Math.max(0, x)). -/
def clamp01 (q : ℚ) : ℚ := min 1 (max 0 q)

/-- The JavaScript or-default idiom "x || d" on an optional number:
missing or zero falls back to the default. -/
def jsNumOr (x : Option ℚ) (d : ℚ) : ℚ :=
  match x with
  | none => d
  | some v => if v = 0 then d else v

/-- The JavaScript or-null idiom "s || null" on an optional string. -/
def jsStrOrNull (x : Option String) : Option String :=
  match x with
  | none => none
  | some s => if s = "" then none else some s

/-- One capability entry stored on an agent. -/
structure Capability where
  name : String
  proficiency : ℚ
  certified : Bool
  certifiedBy : Option String
  certifiedAt : Option Int
deriving DecidableEq, Repr

/-- One capability entry as it arrives in a register/update payload. -/
structure CapInput where
  name : String
  proficiency : Option ℚ
  certified : Bool
deriving DecidableEq, Repr

/-- A registered agent profile. -/
structure Agent where
  id : String
  name : String
  description : String
  capabilities : List Capability
  protocol : String
  visibility : String
  endpoint : Option String
  status : String
  createdAt : Int
  updatedAt : Int
  matchCount : Nat
  successCount : Nat
deriving DecidableEq, Repr

/-- A matchmaking request. Fields written only by later transitions are
optional and start out absent. -/
structure MatchRequest where
  id : String
  requesterId : String
  requiredCapabilities : List String
  minScore : ℚ
  taskDescription : String
  preferredProtocols : List String
  expiresAt : Int
  createdAt : Int
  status : String
  acceptedWith : Option String
  acceptedAt : Option Int
  completedAt : Option Int
  success : Option Bool
  rating : Option ℚ
  feedback : Option String
deriving DecidableEq, Repr

/-- A proposal against a matchmaking request. -/
structure MatchProposal where
  matchId : String
  proposerId : String
  score : ℚ
  matchedCapabilities : List String
  proposedAt : Int
  status : String
deriving DecidableEq, Repr

/-- One recorded rating. -/
structure RatingRecord where
  rating : ℚ
  fromAgent : String
  matchId : String
  timestamp : Int
deriving DecidableEq, Repr

/-- Reputation data for one agent. -/
structure Reputation where
  totalRatings : Nat
  averageRating : ℚ
  ratings : List RatingRecord
deriving DecidableEq, Repr

/-- The incrementally maintained statistics block. -/
structure Stats where
  totalAgents : Int
  totalMatches : Nat
  successfulMatches : Nat
  totalChannels : Nat
  totalMessages : Nat
deriving DecidableEq, Repr

/-- The materialized view produced by replaying commands. -/
structure BridgeState where
  agents : AList Agent
  capabilityIndex : AList (List String)
  matchRequests : AList MatchRequest
  matchProposals : AList MatchProposal
  channelMembers : AList (List String)
  reputation : AList Reputation
  stats : Stats
deriving DecidableEq, Repr

/-- The initial (empty) state of the contract. -/
def initialState : BridgeState :=
  { agents := []
    capabilityIndex := []
    matchRequests := []
    matchProposals := []
    channelMembers := []
    reputation := []
    stats := { totalAgents := 0, totalMatches := 0, successfulMatches := 0
               totalChannels := 0, totalMessages := 0 } }

/-- The authenticated command context: signer identity and logical
timestamp. -/
structure Ctx where
  writer : String
  timestamp : Int
deriving DecidableEq, Repr

/-- Domain errors thrown by the handlers. -/
inductive Err where
  | nameRequired
  | duplicateName
  | notRegistered
  | emptyCapabilitySet
  | requestNotFound
  | requestExpired
  | requestNotPending
  | proposerNotRegistered
  | unauthorized
  | proposalNotFound
deriving DecidableEq, Repr

/-- Read one capability-index entry (missing key reads as empty list). -/
def idxGet (ix : AList (List String)) (c : String) : List String :=
  (getk ix c).getD []

/-- Add an agent id under a capability name in the index. -/
def indexAdd (ix : AList (List String)) (capName agentId : String) :
    AList (List String) :=
  setk ix capName (addUnique (idxGet ix capName) agentId)

/-- Remove (the first occurrence of) an agent id under a capability name;
a missing key is left untouched. -/
def indexRemove (ix : AList (List String)) (capName agentId : String) :
    AList (List String) :=
  match getk ix capName with
  | none => ix
  | some l => setk ix capName (removeFirst l agentId)

/-- Payload of agent_register. -/
structure RegisterPayload where
  name : String
  description : Option String
  capabilities : List CapInput
  protocol : Option String
  visibility : Option String
  endpoint : Option String
deriving DecidableEq, Repr

/-- How agent_register materializes one payload capability: proficiency
defaults (via the or-idiom) to one half and is clamped into the unit
interval; certification stamps writer and timestamp. -/
def regCapability (ctx : Ctx) (c : CapInput) : Capability :=
  { name := c.name
    proficiency := clamp01 (jsNumOr c.proficiency (1 / 2))
    certified := c.certified
    certifiedBy := if c.certified then some ctx.writer else none
    certifiedAt := if c.certified then some ctx.timestamp else none }

/-- The agent_register handler. -/
def agent_register (st : BridgeState) (p : RegisterPayload) (ctx : Ctx) :
    Except Err BridgeState :=
  if p.name = "" then .error .nameRequired
  else if (valuesOf st.agents).any (fun a => a.name == p.name) then
    .error .duplicateName
  else
    let agentId := ctx.writer
    let agent : Agent :=
      { id := agentId
        name := p.name
        description := p.description.getD ""
        capabilities := p.capabilities.map (regCapability ctx)
        protocol := p.protocol.getD "intercom"
        visibility := p.visibility.getD "public"
        endpoint := jsStrOrNull p.endpoint
        status := "online"
        createdAt := ctx.timestamp
        updatedAt := ctx.timestamp
        matchCount := 0
        successCount := 0 }
    let agents := setk st.agents agentId agent
    let index :=
      p.capabilities.foldl (fun ix c => indexAdd ix c.name agentId)
        st.capabilityIndex
    .ok { st with
            agents := agents
            capabilityIndex := index
            stats := { st.stats with totalAgents := st.stats.totalAgents + 1 } }

/-- Payload of agent_update.  The endpoint field distinguishes absent
(outer none) from explicit null (some none). -/
structure UpdatePayload where
  status : Option String
  capabilities : Option (List CapInput)
  visibility : Option String
  endpoint : Option (Option String)
deriving DecidableEq, Repr

/-- How agent_update materializes one payload capability (no
certification stamping on update). -/
def updCapability (c : CapInput) : Capability :=
  { name := c.name
    proficiency := clamp01 (jsNumOr c.proficiency (1 / 2))
    certified := c.certified
    certifiedBy := none
    certifiedAt := none }

/-- The status step of agent_update: applied only when present and a
member of the closed status enumeration. -/
def applyStatusUpd (status : Option String) (a : Agent) : Agent :=
  match status with
  | some s =>
      if s = "online" ∨ s = "offline" ∨ s = "busy" then { a with status := s }
      else a
  | none => a

/-- The visibility step of agent_update. -/
def applyVisibilityUpd (visibility : Option String) (a : Agent) : Agent :=
  match visibility with
  | some v =>
      if v = "public" ∨ v = "private" then { a with visibility := v }
      else a
  | none => a

/-- The endpoint step of agent_update (an explicit null is stored). -/
def applyEndpointUpd (endpoint : Option (Option String)) (a : Agent) :
    Agent :=
  match endpoint with
  | some e => { a with endpoint := e }
  | none => a

/-- The agent_update handler.  When a capability list is supplied the old
list is first removed from the index entry of each old name, then the
new list is inserted (full replacement, no merge). -/
def agent_update (st : BridgeState) (p : UpdatePayload) (ctx : Ctx) :
    Except Err BridgeState :=
  match getk st.agents ctx.writer with
  | none => .error .notRegistered
  | some existingAgent =>
    let agentId := ctx.writer
    let a1 := applyStatusUpd p.status existingAgent
    match p.capabilities with
    | some caps =>
        let ixR := a1.capabilities.foldl
          (fun ix c => indexRemove ix c.name agentId) st.capabilityIndex
        let ixA := caps.foldl (fun ix c => indexAdd ix c.name agentId) ixR
        let a2 := { a1 with capabilities := caps.map updCapability }
        let a5 := { applyEndpointUpd p.endpoint
                      (applyVisibilityUpd p.visibility a2) with
                    updatedAt := ctx.timestamp }
        .ok { st with
                agents := setk st.agents agentId a5
                capabilityIndex := ixA }
    | none =>
        let a5 := { applyEndpointUpd p.endpoint
                      (applyVisibilityUpd p.visibility a1) with
                    updatedAt := ctx.timestamp }
        .ok { st with agents := setk st.agents agentId a5 }

/-- The agent_unregister handler. -/
def agent_unregister (st : BridgeState) (ctx : Ctx) :
    Except Err BridgeState :=
  match getk st.agents ctx.writer with
  | none => .error .notRegistered
  | some existingAgent =>
    let ix := existingAgent.capabilities.foldl
      (fun ix c => indexRemove ix c.name ctx.writer) st.capabilityIndex
    .ok { st with
            agents := delk st.agents ctx.writer
            capabilityIndex := ix
            stats := { st.stats with totalAgents := st.stats.totalAgents - 1 } }

/-- Payload of match_create. -/
structure CreatePayload where
  requiredCapabilities : List String
  minScore : Option ℚ
  taskDescription : Option String
  ttl : Option Int
  preferredProtocols : List String
deriving DecidableEq, Repr

/-- The deterministic match-request id: the literal prefix, the first
eight characters of the writer key, and the timestamp. -/
def mkMatchId (ctx : Ctx) : String :=
  "match-" ++ ctx.writer.take 8 ++ "-" ++ toString ctx.timestamp

/-- The match_create handler.  The time-to-live defaults to 300 and is
multiplied by 1000 when added to the timestamp. -/
def match_create (st : BridgeState) (p : CreatePayload) (ctx : Ctx) :
    Except Err BridgeState :=
  if p.requiredCapabilities = [] then .error .emptyCapabilitySet
  else
    let matchId := mkMatchId ctx
    let expiresAt := ctx.timestamp + (p.ttl.getD 300) * 1000
    let request : MatchRequest :=
      { id := matchId
        requesterId := ctx.writer
        requiredCapabilities := p.requiredCapabilities
        minScore := p.minScore.getD (1 / 2)
        taskDescription := p.taskDescription.getD ""
        preferredProtocols := p.preferredProtocols
        expiresAt := expiresAt
        createdAt := ctx.timestamp
        status := "pending"
        acceptedWith := none
        acceptedAt := none
        completedAt := none
        success := none
        rating := none
        feedback := none }
    .ok { st with
            matchRequests := setk st.matchRequests matchId request
            stats := { st.stats with totalMatches := st.stats.totalMatches + 1 } }

/-- Payload of match_propose. -/
structure ProposePayload where
  matchId : String
  score : ℚ
  matchedCapabilities : List String
deriving DecidableEq, Repr

/-- The key under which a proposal is stored: matchId, a dash, and the
proposer identity. -/
def proposalKeyOf (matchId proposerId : String) : String :=
  matchId ++ "-" ++ proposerId

/-- The match_propose handler. -/
def match_propose (st : BridgeState) (p : ProposePayload) (ctx : Ctx) :
    Except Err BridgeState :=
  match getk st.matchRequests p.matchId with
  | none => .error .requestNotFound
  | some request =>
    if request.expiresAt < ctx.timestamp then .error .requestExpired
    else if request.status ≠ "pending" then .error .requestNotPending
    else
      match getk st.agents ctx.writer with
      | none => .error .proposerNotRegistered
      | some _ =>
        let proposal : MatchProposal :=
          { matchId := p.matchId
            proposerId := ctx.writer
            score := clamp01 p.score
            matchedCapabilities := p.matchedCapabilities
            proposedAt := ctx.timestamp
            status := "proposed" }
        .ok { st with
                matchProposals :=
                  setk st.matchProposals
                    (proposalKeyOf p.matchId ctx.writer) proposal }

/-- Payload of match_accept. -/
structure AcceptPayload where
  matchId : String
  proposerId : String
deriving DecidableEq, Repr

/-- The match_accept handler.  Note that it checks only existence of the
request, authorship, and existence of the proposal; it does not inspect
the request status.  Both match-count reads happen against the original
agents map, so accepting one's own proposal bumps the count once. -/
def match_accept (st : BridgeState) (p : AcceptPayload) (ctx : Ctx) :
    Except Err BridgeState :=
  match getk st.matchRequests p.matchId with
  | none => .error .requestNotFound
  | some request =>
    if request.requesterId ≠ ctx.writer then .error .unauthorized
    else
      let pKey := proposalKeyOf p.matchId p.proposerId
      match getk st.matchProposals pKey with
      | none => .error .proposalNotFound
      | some proposal =>
        let requests := setk st.matchRequests p.matchId
          { request with
              status := "accepted"
              acceptedWith := some p.proposerId
              acceptedAt := some ctx.timestamp }
        let proposals := setk st.matchProposals pKey
          { proposal with status := "accepted" }
        let agents1 :=
          match getk st.agents ctx.writer with
          | some r => setk st.agents ctx.writer
              { r with matchCount := r.matchCount + 1 }
          | none => st.agents
        let agents2 :=
          match getk st.agents p.proposerId with
          | some pr => setk agents1 p.proposerId
              { pr with matchCount := pr.matchCount + 1 }
          | none => agents1
        .ok { st with
                matchRequests := requests
                matchProposals := proposals
                agents := agents2 }

/-- Payload of match_complete. -/
structure CompletePayload where
  matchId : String
  success : Option Bool
  rating : Option ℚ
  feedback : Option String
deriving DecidableEq, Repr

/-- Truthiness of the optional rating (a zero rating is falsy). -/
def ratingGiven (r : Option ℚ) : Bool :=
  match r with
  | none => false
  | some v => v != 0

/-- Truthiness of the optional accepted-with party (empty string falsy). -/
def partyGiven (s : Option String) : Bool :=
  match s with
  | none => false
  | some v => v != ""

/-- The reputation target chosen by match_complete: the accepted party
when the signer is the requester, otherwise the requester. -/
def completeTarget (request : MatchRequest) (ctx : Ctx) : String :=
  if ctx.writer = request.requesterId then request.acceptedWith.getD ""
  else request.requesterId

/-- The match_complete handler.  The only guard is existence of the
request: no authorization and no terminal-state check. -/
def match_complete (st : BridgeState) (p : CompletePayload) (ctx : Ctx) :
    Except Err BridgeState :=
  match getk st.matchRequests p.matchId with
  | none => .error .requestNotFound
  | some request =>
    let success := p.success.getD true
    let requests := setk st.matchRequests p.matchId
      { request with
          status := "completed"
          completedAt := some ctx.timestamp
          success := some success
          rating := p.rating
          feedback := p.feedback }
    let stats :=
      if success then
        { st.stats with successfulMatches := st.stats.successfulMatches + 1 }
      else st.stats
    if ratingGiven p.rating && partyGiven request.acceptedWith then
      let targetId := completeTarget request ctx
      let rep0 := (getk st.reputation targetId).getD
        { totalRatings := 0, averageRating := 0, ratings := [] }
      let newRatings := rep0.ratings ++
        [{ rating := p.rating.getD 0
           fromAgent := ctx.writer
           matchId := p.matchId
           timestamp := ctx.timestamp }]
      let newTotal := rep0.totalRatings + 1
      let rep1 : Reputation :=
        { totalRatings := newTotal
          averageRating := (newRatings.map (·.rating)).sum / (newTotal : ℚ)
          ratings := newRatings }
      let agents :=
        if success then
          match getk st.agents targetId with
          | some t => setk st.agents targetId
              { t with successCount := t.successCount + 1 }
          | none => st.agents
        else st.agents
      .ok { st with
              matchRequests := requests
              stats := stats
              reputation := setk st.reputation targetId rep1
              agents := agents }
    else
      .ok { st with matchRequests := requests, stats := stats }

/-- The channel_join handler. -/
def channel_join (st : BridgeState) (channelId : String) (ctx : Ctx) :
    Except Err BridgeState :=
  match getk st.agents ctx.writer with
  | none => .error .notRegistered
  | some _ =>
    match getk st.channelMembers channelId with
    | none =>
      .ok { st with
              channelMembers := setk st.channelMembers channelId [ctx.writer]
              stats :=
                { st.stats with totalChannels := st.stats.totalChannels + 1 } }
    | some members =>
      .ok { st with
              channelMembers :=
                setk st.channelMembers channelId
                  (if ctx.writer ∈ members then members
                   else members ++ [ctx.writer]) }

/-- The channel_leave handler (never fails). -/
def channel_leave (st : BridgeState) (channelId : String) (ctx : Ctx) :
    Except Err BridgeState :=
  match getk st.channelMembers channelId with
  | none => .ok st
  | some members =>
    .ok { st with
            channelMembers :=
              setk st.channelMembers channelId
                (removeFirst members ctx.writer) }

/-- The message_record handler: bumps the message counter only. -/
def message_record (st : BridgeState) : Except Err BridgeState :=
  .ok { st with
          stats := { st.stats with totalMessages := st.stats.totalMessages + 1 } }

/-- The closed command surface of the engine. -/
inductive Command where
  | agentRegister (p : RegisterPayload)
  | agentUpdate (p : UpdatePayload)
  | agentUnregister
  | matchCreate (p : CreatePayload)
  | matchPropose (p : ProposePayload)
  | matchAccept (p : AcceptPayload)
  | matchComplete (p : CompletePayload)
  | channelJoin (channelId : String)
  | channelLeave (channelId : String)
  | messageRecord
deriving DecidableEq, Repr

/-- Dispatch one command to its handler. -/
def step (st : BridgeState) (cmd : Command) (ctx : Ctx) :
    Except Err BridgeState :=
  match cmd with
  | .agentRegister p => agent_register st p ctx
  | .agentUpdate p => agent_update st p ctx
  | .agentUnregister => agent_unregister st ctx
  | .matchCreate p => match_create st p ctx
  | .matchPropose p => match_propose st p ctx
  | .matchAccept p => match_accept st p ctx
  | .matchComplete p => match_complete st p ctx
  | .channelJoin channelId => channel_join st channelId ctx
  | .channelLeave channelId => channel_leave st channelId ctx
  | .messageRecord => message_record st

/-- The view after a command: the handler result on success, the
untouched input view when the handler raised a domain error. -/
def applyCommand (st : BridgeState) (cmd : Command) (ctx : Ctx) :
    BridgeState :=
  match step st cmd ctx with
  | .ok st' => st'
  | .error _ => st

/-- One row of a discovery result. -/
structure DiscoverEntry where
  id : String
  name : String
  description : String
  status : String
  protocol : String
  capabilities : List Capability
  matchedCapabilities : List String
  matchScore : ℚ
  reputation : Option Reputation
deriving DecidableEq, Repr

/-- A discovery response: the truncated rows and the untruncated count. -/
structure DiscoverResult where
  agents : List DiscoverEntry
  total : Nat
deriving DecidableEq, Repr

/-- The candidate id set of discover, in Set insertion order: the union
of the index entries of the requested capability names, or every public
agent when no capability was requested. -/
def discoverCandidates (st : BridgeState) (capabilities : List String) :
    List String :=
  let ids0 := capabilities.foldl
    (fun acc capName => (idxGet st.capabilityIndex capName).foldl addUnique acc)
    []
  if capabilities = [] then
    ((valuesOf st.agents).filter (fun a => a.visibility == "public")).foldl
      (fun acc a => addUnique acc a.id) ids0
  else ids0

/-- Whether the optional status filter rejects an agent. -/
def statusSkip (status : Option String) (a : Agent) : Bool :=
  match status with
  | none => false
  | some s => s != "" && a.status != s

/-- The scoring loop of discover over one agent's capabilities: the
matched capability names and the summed proficiency of requested
capabilities meeting the proficiency floor. -/
def scoreAgent (capabilities : List String) (minProficiency : ℚ)
    (a : Agent) : List String × ℚ :=
  a.capabilities.foldl
    (fun acc cap =>
      if cap.name ∈ capabilities ∧ minProficiency ≤ cap.proficiency then
        (acc.1 ++ [cap.name], acc.2 + cap.proficiency)
      else acc)
    ([], 0)

/-- The result row discover produces for one candidate id, or none when
the candidate is skipped. -/
def entryFor (st : BridgeState) (capabilities : List String)
    (minProficiency : ℚ) (status : Option String) (agentId : String) :
    Option DiscoverEntry :=
  match getk st.agents agentId with
  | none => none
  | some agent =>
    if agent.visibility ≠ "public" then none
    else if statusSkip status agent then none
    else
      let sc := scoreAgent capabilities minProficiency agent
      let matchScore :=
        if 0 < capabilities.length then sc.2 / (capabilities.length : ℚ)
        else 1 / 2
      if 0 < sc.1.length ∨ capabilities.length = 0 then
        some { id := agent.id
               name := agent.name
               description := agent.description
               status := agent.status
               protocol := agent.protocol
               capabilities := agent.capabilities
               matchedCapabilities := sc.1
               matchScore := matchScore
               reputation := getk st.reputation agentId }
      else none

/-- The unsorted, untruncated result rows of discover. -/
def discoverRawResults (st : BridgeState) (capabilities : List String)
    (minProficiency : ℚ) (status : Option String) : List DiscoverEntry :=
  (discoverCandidates st capabilities).filterMap
    (entryFor st capabilities minProficiency status)

/-- Stable insertion step for the descending sort by match score. -/
def insertDesc (x : DiscoverEntry) : List DiscoverEntry → List DiscoverEntry
  | [] => [x]
  | y :: ys =>
      if y.matchScore ≤ x.matchScore then x :: y :: ys
      else y :: insertDesc x ys

/-- Stable descending sort by match score, as the stable
Array.prototype.sort with comparator on the score. -/
def sortByScoreDesc : List DiscoverEntry → List DiscoverEntry
  | [] => []
  | x :: xs => insertDesc x (sortByScoreDesc xs)

/-- The discover reader: candidates, filtering, scoring, descending
sort, truncation.  The categories argument is accepted but ignored, as
in the source. -/
def discover (st : BridgeState) (capabilities categories : List String)
    (minProficiency : ℚ) (status : Option String) (limit : Nat) :
    DiscoverResult :=
  let results :=
    sortByScoreDesc (discoverRawResults st capabilities minProficiency status)
  { agents := results.take limit, total := results.length }

/-! Invariants of the view. -/

/-- The keys of a map are pairwise distinct (always true of a JavaScript
object; association lists built by setk and delk keep it). -/
def KeysNodup {α : Type} (m : AList α) : Prop := (m.map (·.1)).Nodup

/-- Every capability-index entry is duplicate-free. -/
def NodupIdx (ix : AList (List String)) : Prop := ∀ c, (idxGet ix c).Nodup

/-- Every agent entry is stored under its own id. -/
def WellKeyed (st : BridgeState) : Prop :=
  ∀ k a, getk st.agents k = some a → a.id = k

/-- The lockstep invariant between the per-agent capability lists and
the capability index: for every agent present in the view and every
capability name, the agent id sits in the index entry of that name
exactly when the name appears in the agent's capability list. -/
def IndexInv (st : BridgeState) : Prop :=
  ∀ a ∈ valuesOf st.agents, ∀ c : String,
    (a.id ∈ idxGet st.capabilityIndex c ↔ c ∈ a.capabilities.map (·.name))

/-- Structural well-formedness of the view's maps. -/
def StateWF (st : BridgeState) : Prop :=
  KeysNodup st.agents ∧ WellKeyed st ∧ NodupIdx st.capabilityIndex

/-- The result row discover produces for a public agent under an empty
capability query: no matched capabilities and the fixed score one half.
Used to characterize the browse-all behaviour of discover. -/
def browseEntry (st : BridgeState) (a : Agent) : DiscoverEntry :=
  { id := a.id
    name := a.name
    description := a.description
    status := a.status
    protocol := a.protocol
    capabilities := a.capabilities
    matchedCapabilities := []
    matchScore := 1 / 2
    reputation := getk st.reputation a.id }

/-- The full browse-all result list: the public agents in map order,
filtered by the optional status, each mapped to its browse row. -/
def browseList (st : BridgeState) (status : Option String) :
    List DiscoverEntry :=
  (((valuesOf st.agents).filter (fun a => a.visibility == "public")).filter
    (fun a => !(statusSkip status a))).map (browseEntry st)

/-! Concrete replay scenarios used as test inputs. -/

/-- Shorthand for a command context. -/
def ctxOf (w : String) (t : Int) : Ctx := ⟨w, t⟩

/-- Placeholder agent used only to read optional lookups. -/
def dummyAgent : Agent :=
  { id := "", name := "", description := "", capabilities := []
    protocol := "", visibility := "", endpoint := none, status := ""
    createdAt := 0, updatedAt := 0, matchCount := 0, successCount := 0 }

/-- Placeholder request used only to read optional lookups. -/
def dummyRequest : MatchRequest :=
  { id := "", requesterId := "", requiredCapabilities := [], minScore := 0
    taskDescription := "", preferredProtocols := [], expiresAt := 0
    createdAt := 0, status := "", acceptedWith := none, acceptedAt := none
    completedAt := none, success := none, rating := none, feedback := none }

/-- Placeholder proposal used only to read optional lookups. -/
def dummyProposal : MatchProposal := ⟨"", "", 0, [], 0, ""⟩

/-- Placeholder reputation record used only to read optional lookups. -/
def dummyReputation : Reputation := ⟨0, 0, []⟩

/-- Registration payload: agent alpha with capabilities x, y, z at
proficiency two fifths each. -/
def regPayloadA : RegisterPayload :=
  { name := "alpha", description := none
    capabilities := [⟨"x", some (2 / 5), false⟩, ⟨"y", some (2 / 5), false⟩,
      ⟨"z", some (2 / 5), false⟩]
    protocol := none, visibility := none, endpoint := none }

/-- Registration payload: agent beta with capability x at proficiency
one half. -/
def regPayloadB : RegisterPayload :=
  { name := "beta", description := none
    capabilities := [⟨"x", some (1 / 2), false⟩]
    protocol := none, visibility := none, endpoint := none }

/-- Two public agents: alpha (x, y, z at 0.4) then beta (x at 0.5). -/
def stPair : BridgeState :=
  applyCommand
    (applyCommand initialState (.agentRegister regPayloadA) (ctxOf "A" 0))
    (.agentRegister regPayloadB) (ctxOf "B" 1)

/-- Registration payload: agent rho with capability x at 0.9. -/
def regPayloadR : RegisterPayload :=
  { name := "rho", description := none
    capabilities := [⟨"x", some (9 / 10), false⟩]
    protocol := none, visibility := none, endpoint := none }

/-- A self-match replay by the single writer R: register, create a
request, propose against the own request, accept the own proposal. -/
def stSelf : BridgeState :=
  applyCommand (applyCommand (applyCommand (applyCommand initialState
    (.agentRegister regPayloadR) (ctxOf "R" 0))
    (.matchCreate ⟨["x"], none, none, none, []⟩) (ctxOf "R" 1))
    (.matchPropose ⟨"match-R-1", 4 / 5, ["x"]⟩) (ctxOf "R" 2))
    (.matchAccept ⟨"match-R-1", "R"⟩) (ctxOf "R" 3)

/-- The self-match replay after one completion with rating 5. -/
def stCompleted : BridgeState :=
  applyCommand stSelf
    (.matchComplete ⟨"match-R-1", none, some 5, none⟩) (ctxOf "R" 5)

/-- The same writer registers twice under two names: the second
registration overwrites the agent entry (capability y) but leaves the
stale index entry for x in place. -/
def stOrphan : BridgeState :=
  applyCommand (applyCommand initialState
    (.agentRegister ⟨"a", none, [⟨"x", some (9 / 10), false⟩],
      none, none, none⟩) (ctxOf "w" 0))
    (.agentRegister ⟨"b", none, [⟨"y", some (8 / 10), false⟩],
      none, none, none⟩) (ctxOf "w" 1)

/-- A registration whose capability carries numeric proficiency zero. -/
def stProfZero : BridgeState :=
  applyCommand initialState
    (.agentRegister ⟨"a", none, [⟨"x", some 0, false⟩], none, none, none⟩)
    (ctxOf "w" 0)

/-- A lone pending match request created by writer Q at time zero with
an explicit time-to-live of 1 (stored expiry 1000). -/
def stReq : BridgeState :=
  applyCommand initialState
    (.matchCreate ⟨["x"], none, none, some 1, []⟩) (ctxOf "Q" 0)

/-- A literal single-agent profile used for witnesses. -/
def agentW : Agent :=
  { id := "w", name := "a", description := ""
    capabilities := [⟨"x", 9 / 10, false, none, none⟩]
    protocol := "intercom", visibility := "public", endpoint := none
    status := "online", createdAt := 0, updatedAt := 0
    matchCount := 0, successCount := 0 }

/-- A literal single-agent view with a consistent capability index. -/
def stSingle : BridgeState :=
  { agents := [("w", agentW)]
    capabilityIndex := [("x", ["w"])]
    matchRequests := []
    matchProposals := []
    channelMembers := []
    reputation := []
    stats := { totalAgents := 1, totalMatches := 0, successfulMatches := 0
               totalChannels := 0, totalMessages := 0 } }

/-! Association-list lemmas. -/

theorem getk_setk {α : Type} (m : AList α) (k : String) (v : α)
    (k' : String) :
    getk (setk m k v) k' = if k' = k then some v else getk m k' := by
  induction m with
  | nil =>
      rcases eq_or_ne k' k with h | h
      · subst h; simp [setk, getk]
      · simp [setk, getk, h, Ne.symm h]
  | cons p t ih =>
      obtain ⟨k0, w⟩ := p
      rcases eq_or_ne k0 k with h0 | h0
      · subst h0
        rcases eq_or_ne k' k0 with h | h
        · subst h; simp [setk, getk]
        · simp [setk, getk, h, Ne.symm h]
      · rcases eq_or_ne k0 k' with h | h
        · subst h
          simp [setk, getk, h0, Ne.symm h0]
        · simp [setk, getk, h0, h, ih]

theorem getk_delk {α : Type} (m : AList α) (k k' : String) :
    getk (delk m k) k' = if k' = k then none else getk m k' := by
  induction m with
  | nil => simp [delk, getk]
  | cons p t ih =>
      obtain ⟨k0, w⟩ := p
      simp only [delk, ne_eq, decide_not] at ih ⊢
      rcases eq_or_ne k0 k with h0 | h0
      · subst h0
        rcases eq_or_ne k' k0 with h | h
        · subst h; simp [List.filter_cons, getk, ih]
        · simp [List.filter_cons, getk, ih, h, Ne.symm h]
      · rcases eq_or_ne k0 k' with h | h
        · subst h
          simp [List.filter_cons, getk, h0, Ne.symm h0]
        · simp [List.filter_cons, getk, h0, h, ih]

theorem eq_some_getD {α : Type} (o : Option α) (d : α)
    (h : o.isSome = true) : o = some (o.getD d) := by
  cases o with
  | none => simp at h
  | some v => rfl

theorem getk_mem {α : Type} {m : AList α} {k : String} {v : α}
    (h : getk m k = some v) : (k, v) ∈ m := by
  induction m with
  | nil => simp [getk] at h
  | cons p t ih =>
      obtain ⟨k0, w⟩ := p
      simp only [getk] at h
      by_cases h0 : k0 = k
      · subst h0
        rw [if_pos rfl] at h
        cases h
        exact List.mem_cons_self _ _
      · rw [if_neg h0] at h
        exact List.mem_cons_of_mem _ (ih h)

theorem mem_getk {α : Type} {m : AList α} {k : String} {v : α}
    (hnd : KeysNodup m) (h : (k, v) ∈ m) : getk m k = some v := by
  induction m with
  | nil => simp at h
  | cons p t ih =>
      obtain ⟨k0, w⟩ := p
      rcases List.mem_cons.1 h with h1 | h1
      · cases h1
        simp [getk]
      · have hk : k0 ≠ k := by
          intro hh
          subst hh
          have : k0 ∈ t.map (·.1) := List.mem_map.2 ⟨(k0, v), h1, rfl⟩
          exact (List.nodup_cons.1 hnd).1 this
        simp only [getk, if_neg hk]
        exact ih (List.nodup_cons.1 hnd).2 h1

theorem mem_values_of_getk {α : Type} {m : AList α} {k : String} {v : α}
    (h : getk m k = some v) : v ∈ valuesOf m :=
  List.mem_map.2 ⟨(k, v), getk_mem h, rfl⟩

theorem mem_values_iff_getk {α : Type} {m : AList α} {v : α}
    (hnd : KeysNodup m) :
    v ∈ valuesOf m ↔ ∃ k, getk m k = some v := by
  constructor
  · intro h
    obtain ⟨⟨k, w⟩, hm, hw⟩ := List.mem_map.1 h
    cases hw
    exact ⟨k, mem_getk hnd hm⟩
  · rintro ⟨k, h⟩
    exact mem_values_of_getk h

theorem keys_setk {α : Type} (m : AList α) (k : String) (v : α) :
    (setk m k v).map (·.1) =
      if k ∈ m.map (·.1) then m.map (·.1) else m.map (·.1) ++ [k] := by
  induction m with
  | nil => simp [setk]
  | cons p t ih =>
      obtain ⟨k0, w⟩ := p
      simp only [setk]
      by_cases h0 : k0 = k
      · subst h0
        simp
      · rw [if_neg h0]
        simp only [List.map_cons, ih]
        by_cases h : k ∈ t.map (·.1)
        · rw [if_pos h, if_pos]
          simp [h]
        · rw [if_neg h, if_neg]
          · simp
          · simp only [List.mem_cons]
            rintro (h1 | h1)
            · exact h0 h1.symm
            · exact h h1

theorem keysNodup_setk {α : Type} {m : AList α} (k : String) (v : α)
    (hnd : KeysNodup m) : KeysNodup (setk m k v) := by
  unfold KeysNodup
  rw [keys_setk]
  by_cases h : k ∈ m.map (·.1)
  · rwa [if_pos h]
  · rw [if_neg h]
    refine List.Nodup.append hnd (List.nodup_singleton k) ?_
    intro a ha hb
    rw [List.mem_singleton] at hb
    subst hb
    exact h ha

theorem keysNodup_delk {α : Type} {m : AList α} (k : String)
    (hnd : KeysNodup m) : KeysNodup (delk m k) := by
  have h1 : List.Sublist
      ((List.filter (fun p => decide (p.1 ≠ k)) m).map (fun p => p.1))
      (m.map (fun p => p.1)) :=
    (List.filter_sublist m).map (fun p => p.1)
  exact h1.nodup hnd

/-! Lemmas on removeFirst and addUnique. -/

theorem mem_addUnique {l : List String} {x y : String} :
    x ∈ addUnique l y ↔ x ∈ l ∨ x = y := by
  unfold addUnique
  by_cases h : y ∈ l
  · rw [if_pos h]
    constructor
    · exact Or.inl
    · rintro (h1 | h1)
      · exact h1
      · subst h1; exact h
  · rw [if_neg h]
    simp

theorem self_mem_addUnique (l : List String) (y : String) :
    y ∈ addUnique l y :=
  mem_addUnique.2 (Or.inr rfl)

theorem nodup_addUnique {l : List String} (y : String) (h : l.Nodup) :
    (addUnique l y).Nodup := by
  unfold addUnique
  by_cases hy : y ∈ l
  · rwa [if_pos hy]
  · rw [if_neg hy]
    refine List.Nodup.append h (List.nodup_singleton y) ?_
    intro a ha hb
    rw [List.mem_singleton] at hb
    subst hb
    exact hy ha

theorem addUnique_idem (l : List String) (y : String) :
    addUnique (addUnique l y) y = addUnique l y := by
  unfold addUnique
  by_cases h : y ∈ l
  · rw [if_pos h, if_pos h]
  · rw [if_neg h, if_pos (by simp)]

theorem removeFirst_sublist (l : List String) (x : String) :
    List.Sublist (removeFirst l x) l := by
  induction l with
  | nil => simp [removeFirst]
  | cons a t ih =>
      unfold removeFirst
      by_cases h : a = x
      · rw [if_pos h]
        exact List.sublist_cons_self a t
      · rw [if_neg h]
        exact ih.cons₂ a

theorem nodup_removeFirst {l : List String} (x : String) (h : l.Nodup) :
    (removeFirst l x).Nodup :=
  (removeFirst_sublist l x).nodup h

theorem mem_removeFirst_of_ne {l : List String} {x y : String}
    (hxy : x ≠ y) : x ∈ removeFirst l y ↔ x ∈ l := by
  induction l with
  | nil => simp [removeFirst]
  | cons a t ih =>
      unfold removeFirst
      by_cases h : a = y
      · subst h
        rw [if_pos rfl, List.mem_cons]
        constructor
        · exact Or.inr
        · rintro (h1 | h1)
          · exact absurd h1 hxy
          · exact h1
      · rw [if_neg h, List.mem_cons, List.mem_cons, ih]

theorem not_mem_removeFirst_self {l : List String} (h : l.Nodup)
    (y : String) : y ∉ removeFirst l y := by
  induction l with
  | nil => simp [removeFirst]
  | cons a t ih =>
      rw [List.nodup_cons] at h
      unfold removeFirst
      by_cases ha : a = y
      · subst ha
        rw [if_pos rfl]
        exact h.1
      · rw [if_neg ha, List.mem_cons]
        rintro (h1 | h1)
        · exact ha h1.symm
        · exact ih h.2 h1

theorem mem_removeFirst_nodup {l : List String} {x y : String}
    (h : l.Nodup) : x ∈ removeFirst l y ↔ x ∈ l ∧ x ≠ y := by
  by_cases hxy : x = y
  · subst hxy
    simp [not_mem_removeFirst_self h x]
  · rw [mem_removeFirst_of_ne hxy]
    simp [hxy]

/-! Lemmas on the capability index operations. -/

theorem idxGet_setk (ix : AList (List String)) (k : String)
    (v : List String) (c : String) :
    idxGet (setk ix k v) c = if c = k then v else idxGet ix c := by
  unfold idxGet
  rw [getk_setk]
  by_cases h : c = k
  · rw [if_pos h, if_pos h]; rfl
  · rw [if_neg h, if_neg h]

theorem idxGet_indexAdd (ix : AList (List String)) (name id c : String) :
    idxGet (indexAdd ix name id) c =
      if c = name then addUnique (idxGet ix name) id else idxGet ix c := by
  unfold indexAdd
  rw [idxGet_setk]

theorem idxGet_indexRemove (ix : AList (List String)) (name id c : String) :
    idxGet (indexRemove ix name id) c =
      if c = name then removeFirst (idxGet ix name) id else idxGet ix c := by
  unfold indexRemove
  cases hg : getk ix name with
  | none =>
      by_cases h : c = name
      · subst h
        simp [idxGet, hg, removeFirst]
      · rw [if_neg h]
  | some l =>
      rw [idxGet_setk]
      by_cases h : c = name
      · subst h
        simp [idxGet, hg]
      · rw [if_neg h, if_neg h]

theorem nodupIdx_indexAdd {ix : AList (List String)} (name id : String)
    (h : NodupIdx ix) : NodupIdx (indexAdd ix name id) := by
  intro c
  rw [idxGet_indexAdd]
  by_cases hc : c = name
  · rw [if_pos hc]
    exact nodup_addUnique id (h name)
  · rw [if_neg hc]
    exact h c

theorem nodupIdx_indexRemove {ix : AList (List String)} (name id : String)
    (h : NodupIdx ix) : NodupIdx (indexRemove ix name id) := by
  intro c
  rw [idxGet_indexRemove]
  by_cases hc : c = name
  · rw [if_pos hc]
    exact nodup_removeFirst id (h name)
  · rw [if_neg hc]
    exact h c

/-- Membership in the index after the removal loop of update or
unregister: the agent id is removed from every entry named by the list,
every other membership is untouched.  Needs duplicate-free entries so
that removing the first occurrence removes every occurrence. -/
theorem mem_idxGet_foldRemove {α : Type} (f : α → String) (w : String) :
    ∀ (l : List α) (ix : AList (List String)), NodupIdx ix → ∀ c k,
      (k ∈ idxGet (l.foldl (fun ix a => indexRemove ix (f a) w) ix) c ↔
        k ∈ idxGet ix c ∧ ¬(k = w ∧ c ∈ l.map f)) := by
  intro l
  induction l with
  | nil => intro ix _ c k; simp
  | cons a t ih =>
      intro ix hnd c k
      rw [List.foldl_cons]
      rw [ih (indexRemove ix (f a) w) (nodupIdx_indexRemove (f a) w hnd) c k]
      rw [idxGet_indexRemove]
      by_cases hca : c = f a
      · rw [if_pos hca, hca]
        rw [mem_removeFirst_nodup (hnd (f a))]
        simp only [List.map_cons, List.mem_cons, hca]
        constructor
        · rintro ⟨⟨h1, h2⟩, _⟩
          exact ⟨h1, fun hh => h2 hh.1⟩
        · rintro ⟨h1, h2⟩
          have hkw : k ≠ w := fun hh => h2 ⟨hh, Or.inl trivial⟩
          exact ⟨⟨h1, hkw⟩, fun hh => hkw hh.1⟩
      · rw [if_neg hca]
        simp only [List.map_cons, List.mem_cons]
        constructor
        · rintro ⟨h1, h2⟩
          refine ⟨h1, ?_⟩
          rintro ⟨hkw, hc | hc⟩
          · exact hca hc
          · exact h2 ⟨hkw, hc⟩
        · rintro ⟨h1, h2⟩
          exact ⟨h1, fun hh => h2 ⟨hh.1, Or.inr hh.2⟩⟩

theorem nodupIdx_foldRemove {α : Type} (f : α → String) (w : String) :
    ∀ (l : List α) (ix : AList (List String)), NodupIdx ix →
      NodupIdx (l.foldl (fun ix a => indexRemove ix (f a) w) ix) := by
  intro l
  induction l with
  | nil => intro ix h; exact h
  | cons a t ih =>
      intro ix h
      rw [List.foldl_cons]
      exact ih _ (nodupIdx_indexRemove (f a) w h)

/-- Reading the index after the insertion loop of register or update:
the agent id is added (once) to every entry named by the list, the other
entries are untouched. -/
theorem idxGet_foldAdd {α : Type} (f : α → String) (w : String) :
    ∀ (l : List α) (ix : AList (List String)), ∀ c,
      idxGet (l.foldl (fun ix a => indexAdd ix (f a) w) ix) c =
        if c ∈ l.map f then addUnique (idxGet ix c) w
        else idxGet ix c := by
  intro l
  induction l with
  | nil => intro ix c; simp
  | cons a t ih =>
      intro ix c
      rw [List.foldl_cons, ih (indexAdd ix (f a) w) c]
      by_cases hc : c ∈ t.map f
      · rw [if_pos hc, if_pos (by simp [hc])]
        rw [idxGet_indexAdd]
        by_cases hca : c = f a
        · rw [if_pos hca, hca, addUnique_idem]
        · rw [if_neg hca]
      · rw [if_neg hc, idxGet_indexAdd]
        by_cases hca : c = f a
        · rw [if_pos hca, if_pos (by simp [hca]), hca]
        · rw [if_neg hca, if_neg (by simp [hca, hc])]

/-! Field-preservation facts about the partial update steps. -/

theorem applyStatusUpd_id (s : Option String) (a : Agent) :
    (applyStatusUpd s a).id = a.id := by
  cases s with
  | none => rfl
  | some v =>
      by_cases h : v = "online" ∨ v = "offline" ∨ v = "busy" <;>
        simp [applyStatusUpd, h]

theorem applyStatusUpd_capabilities (s : Option String) (a : Agent) :
    (applyStatusUpd s a).capabilities = a.capabilities := by
  cases s with
  | none => rfl
  | some v =>
      by_cases h : v = "online" ∨ v = "offline" ∨ v = "busy" <;>
        simp [applyStatusUpd, h]

theorem applyVisibilityUpd_id (s : Option String) (a : Agent) :
    (applyVisibilityUpd s a).id = a.id := by
  cases s with
  | none => rfl
  | some v =>
      by_cases h : v = "public" ∨ v = "private" <;>
        simp [applyVisibilityUpd, h]

theorem applyVisibilityUpd_capabilities (s : Option String) (a : Agent) :
    (applyVisibilityUpd s a).capabilities = a.capabilities := by
  cases s with
  | none => rfl
  | some v =>
      by_cases h : v = "public" ∨ v = "private" <;>
        simp [applyVisibilityUpd, h]

theorem applyEndpointUpd_id (e : Option (Option String)) (a : Agent) :
    (applyEndpointUpd e a).id = a.id := by
  cases e <;> rfl

theorem applyEndpointUpd_capabilities (e : Option (Option String))
    (a : Agent) :
    (applyEndpointUpd e a).capabilities = a.capabilities := by
  cases e <;> rfl

theorem map_name_updCapability (l : List CapInput) :
    (l.map updCapability).map (·.name) = l.map (·.name) := by
  induction l with
  | nil => rfl
  | cons c t ih => simp [updCapability, ih]

theorem map_name_regCapability (ctx : Ctx) (l : List CapInput) :
    (l.map (regCapability ctx)).map (·.name) = l.map (·.name) := by
  induction l with
  | nil => rfl
  | cons c t ih => simp [regCapability, ih]

theorem idxGet_foldAddCapInput (w : String) (l : List CapInput)
    (ix : AList (List String)) (c : String) :
    idxGet (l.foldl (fun ix cp => indexAdd ix cp.name w) ix) c =
      if c ∈ l.map (fun cp => cp.name) then addUnique (idxGet ix c) w
      else idxGet ix c :=
  idxGet_foldAdd (fun cp => cp.name) w l ix c

theorem mem_idxGet_foldRemoveCap (w : String) (l : List Capability)
    (ix : AList (List String)) (hnd : NodupIdx ix) (c k : String) :
    k ∈ idxGet (l.foldl (fun ix cp => indexRemove ix cp.name w) ix) c ↔
      k ∈ idxGet ix c ∧ ¬(k = w ∧ c ∈ l.map (fun cp => cp.name)) :=
  mem_idxGet_foldRemove (fun cp => cp.name) w l ix hnd c k

/-- Bridge the lockstep invariant to its lookup-level form. -/
theorem indexInv_getk {st : BridgeState} (hW : WellKeyed st)
    (hinv : IndexInv st) :
    ∀ k a c, getk st.agents k = some a →
      (k ∈ idxGet st.capabilityIndex c ↔ c ∈ a.capabilities.map (·.name)) := by
  intro k a c hk
  have hid := hW k a hk
  have h2 := hinv a (mem_values_of_getk hk) c
  rwa [hid] at h2

/-- C2 (amended): after an agent_update or agent_unregister transition
from a well-formed view satisfying the capability-index lockstep
invariant, and after an agent_register transition whose signer is not
already registered and has no stale index entries, the lockstep
invariant holds again: for every agent present in the view and every
capability name, the agent id is in the index entry of that name exactly
when the name is in the agent's capability list.  (A register by an
already-registered signer can break the invariant; see the
counterexample.) -/
theorem index_lockstep_preserved (st : BridgeState) (hwf : StateWF st)
    (hinv : IndexInv st) :
    (∀ p ctx st', agent_update st p ctx = .ok st' → IndexInv st') ∧
    (∀ ctx st', agent_unregister st ctx = .ok st' → IndexInv st') ∧
    (∀ p ctx st', getk st.agents ctx.writer = none →
      (∀ c, ctx.writer ∉ idxGet st.capabilityIndex c) →
      agent_register st p ctx = .ok st' → IndexInv st') := by
  obtain ⟨hKN, hWK, hND⟩ := hwf
  have hG := indexInv_getk hWK hinv
  refine ⟨?_, ?_, ?_⟩
  · -- update
    intro p ctx st' hu
    unfold agent_update at hu
    cases hg0 : getk st.agents ctx.writer with
    | none => rw [hg0] at hu; simp at hu
    | some a0 =>
      rw [hg0] at hu
      have hid0 : a0.id = ctx.writer := hWK _ _ hg0
      cases hpc : p.capabilities with
      | none =>
        rw [hpc] at hu
        simp only [Except.ok.injEq] at hu
        subst hu
        intro b hb c
        obtain ⟨k, hk⟩ := (mem_values_iff_getk (keysNodup_setk _ _ hKN)).1 hb
        rw [getk_setk] at hk
        by_cases hkw : k = ctx.writer
        · rw [if_pos hkw] at hk
          injection hk with hk
          subst hk
          simp only [applyEndpointUpd_capabilities,
            applyVisibilityUpd_capabilities, applyStatusUpd_capabilities,
            applyEndpointUpd_id, applyVisibilityUpd_id, applyStatusUpd_id]
          rw [hid0]
          exact hG _ _ c hg0
        · rw [if_neg hkw] at hk
          rw [hWK _ _ hk]
          exact hG _ _ c hk
      | some caps =>
        rw [hpc] at hu
        simp only [Except.ok.injEq] at hu
        subst hu
        intro b hb c
        obtain ⟨k, hk⟩ := (mem_values_iff_getk (keysNodup_setk _ _ hKN)).1 hb
        rw [getk_setk] at hk
        have hacaps : (applyStatusUpd p.status a0).capabilities =
            a0.capabilities := applyStatusUpd_capabilities _ _
        by_cases hkw : k = ctx.writer
        · rw [if_pos hkw] at hk
          injection hk with hk
          subst hk
          simp only [applyEndpointUpd_capabilities,
            applyVisibilityUpd_capabilities, applyEndpointUpd_id,
            applyVisibilityUpd_id, applyStatusUpd_id]
          rw [hid0, map_name_updCapability, idxGet_foldAddCapInput]
          by_cases hcn : c ∈ caps.map (fun cp => cp.name)
          · rw [if_pos hcn]
            simp only [hcn, iff_true]
            exact self_mem_addUnique _ _
          · rw [if_neg hcn]
            rw [mem_idxGet_foldRemoveCap _ _ _ hND, hacaps]
            refine iff_of_false ?_ hcn
            rintro ⟨h1, h2⟩
            exact h2 ⟨rfl, ((hG _ _ c hg0).mp h1)⟩
        · rw [if_neg hkw] at hk
          rw [hWK _ _ hk]
          rw [idxGet_foldAddCapInput]
          by_cases hcn : c ∈ caps.map (fun cp => cp.name)
          · rw [if_pos hcn, mem_addUnique]
            simp only [hkw, or_false]
            rw [mem_idxGet_foldRemoveCap _ _ _ hND]
            constructor
            · rintro ⟨h1, _⟩
              exact (hG _ _ c hk).mp h1
            · intro h1
              exact ⟨(hG _ _ c hk).mpr h1, fun hh => hkw hh.1⟩
          · rw [if_neg hcn]
            rw [mem_idxGet_foldRemoveCap _ _ _ hND]
            constructor
            · rintro ⟨h1, _⟩
              exact (hG _ _ c hk).mp h1
            · intro h1
              exact ⟨(hG _ _ c hk).mpr h1, fun hh => hkw hh.1⟩
  · -- unregister
    intro ctx st' hu
    unfold agent_unregister at hu
    cases hg0 : getk st.agents ctx.writer with
    | none => rw [hg0] at hu; simp at hu
    | some a0 =>
      rw [hg0] at hu
      simp only [Except.ok.injEq] at hu
      subst hu
      intro b hb c
      obtain ⟨k, hk⟩ := (mem_values_iff_getk (keysNodup_delk _ hKN)).1 hb
      rw [getk_delk] at hk
      by_cases hkw : k = ctx.writer
      · rw [if_pos hkw] at hk
        simp at hk
      · rw [if_neg hkw] at hk
        rw [hWK _ _ hk]
        rw [mem_idxGet_foldRemoveCap _ _ _ hND]
        constructor
        · rintro ⟨h1, _⟩
          exact (hG _ _ c hk).mp h1
        · intro h1
          exact ⟨(hG _ _ c hk).mpr h1, fun hh => hkw hh.1⟩
  · -- register of a fresh, ghost-free signer
    intro p ctx st' hfresh hghost hreg
    unfold agent_register at hreg
    by_cases h1 : p.name = ""
    · rw [if_pos h1] at hreg; simp at hreg
    · rw [if_neg h1] at hreg
      by_cases h2 :
          ((valuesOf st.agents).any fun a => a.name == p.name) = true
      · rw [if_pos h2] at hreg; simp at hreg
      · rw [if_neg h2] at hreg
        simp only [Except.ok.injEq] at hreg
        subst hreg
        intro b hb c
        obtain ⟨k, hk⟩ := (mem_values_iff_getk (keysNodup_setk _ _ hKN)).1 hb
        rw [getk_setk] at hk
        by_cases hkw : k = ctx.writer
        · rw [if_pos hkw] at hk
          injection hk with hk
          subst hk
          simp only []
          rw [map_name_regCapability, idxGet_foldAddCapInput]
          by_cases hcn : c ∈ p.capabilities.map (fun cp => cp.name)
          · rw [if_pos hcn]
            simp only [hcn, iff_true]
            exact self_mem_addUnique _ _
          · rw [if_neg hcn]
            exact iff_of_false (hghost c) hcn
        · rw [if_neg hkw] at hk
          rw [hWK _ _ hk]
          rw [idxGet_foldAddCapInput]
          by_cases hcn : c ∈ p.capabilities.map (fun cp => cp.name)
          · rw [if_pos hcn, mem_addUnique]
            simp only [hkw, or_false]
            exact hG _ _ c hk
          · rw [if_neg hcn]
            exact hG _ _ c hk

/-- C2 counterexample: replaying two agent_register transitions by the
same writer w under different names (stOrphan) leaves the view after a
register transition with the lockstep invariant broken: w's stored agent
lists only capability y, yet w is still a member of the index entry
for x. -/
theorem index_lockstep_counterexample : ¬ IndexInv stOrphan := by
  intro h
  have hmem : ((getk stOrphan.agents "w").getD dummyAgent) ∈
      valuesOf stOrphan.agents := by with_unfolding_all decide
  have h2 := (h _ hmem "x").mp (by with_unfolding_all decide)
  revert h2
  with_unfolding_all decide

/-- Witness for the lockstep preservation theorem: the empty view is
well formed and invariant, and registering the fresh writer R keeps the
invariant. -/
theorem index_lockstep_preserved_witness :
    StateWF initialState ∧ IndexInv initialState ∧
      IndexInv (applyCommand initialState (.agentRegister regPayloadR)
        (ctxOf "R" 0)) := by
  have hwf : StateWF initialState :=
    ⟨by simp [KeysNodup, initialState],
     fun k a h => by simp [initialState, getk] at h,
     fun c => by simp [idxGet, initialState, getk]⟩
  have hinv : IndexInv initialState := by
    intro a ha
    simp [valuesOf, initialState] at ha
  refine ⟨hwf, hinv, ?_⟩
  have happly : agent_register initialState regPayloadR (ctxOf "R" 0) =
      .ok (applyCommand initialState (.agentRegister regPayloadR)
        (ctxOf "R" 0)) := by
    with_unfolding_all rfl
  exact (index_lockstep_preserved initialState hwf hinv).2.2
    regPayloadR (ctxOf "R" 0) _ (by with_unfolding_all decide)
    (fun c => by simp [initialState, idxGet, getk]) happly

/-- C9 (amended): for a registered signer whose stale-free index
membership is confined to its own capability names, agent_unregister
removes the agent entry, removes the id from every capability-index
entry, decrements the agent counter, and leaves the match-request,
match-proposal, channel-membership and reputation maps exactly
unchanged.  (Without the stale-free hypothesis an orphaned index entry
survives; see the counterexample.) -/
theorem unregister_removes_and_frames (st : BridgeState) (ctx : Ctx)
    (a : Agent)
    (hge : getk st.agents ctx.writer = some a)
    (hnd : NodupIdx st.capabilityIndex)
    (hown : ∀ c, ctx.writer ∈ idxGet st.capabilityIndex c →
      c ∈ a.capabilities.map (·.name)) :
    ∃ st', agent_unregister st ctx = .ok st' ∧
      getk st'.agents ctx.writer = none ∧
      (∀ c, ctx.writer ∉ idxGet st'.capabilityIndex c) ∧
      st'.stats.totalAgents = st.stats.totalAgents - 1 ∧
      st'.matchRequests = st.matchRequests ∧
      st'.matchProposals = st.matchProposals ∧
      st'.channelMembers = st.channelMembers ∧
      st'.reputation = st.reputation := by
  unfold agent_unregister
  rw [hge]
  refine ⟨_, rfl, ?_, ?_, rfl, rfl, rfl, rfl, rfl⟩
  · rw [getk_delk]
    simp
  · intro c
    rw [mem_idxGet_foldRemoveCap _ _ _ hnd]
    rintro ⟨h1, h2⟩
    exact h2 ⟨rfl, hown c h1⟩

/-- C9 counterexample: in the replayed view stOrphan the signer w is
registered, yet after agent_unregister the id w is still a member of the
capability-index entry for x (the stale entry left by re-registration),
so unregister does not remove the id from every index entry. -/
theorem unregister_counterexample :
    (getk stOrphan.agents "w").isSome = true ∧
    getk (applyCommand stOrphan .agentUnregister (ctxOf "w" 2)).agents "w"
      = none ∧
    "w" ∈ idxGet
      (applyCommand stOrphan .agentUnregister (ctxOf "w" 2)).capabilityIndex
      "x" := by
  refine ⟨?_, ?_, ?_⟩ <;> with_unfolding_all decide

/-- Witness for the unregister theorem at a concrete single-agent view. -/
theorem unregister_removes_and_frames_witness :
    getk stSingle.agents "w" = some agentW ∧
    (∃ st', agent_unregister stSingle (ctxOf "w" 3) = .ok st' ∧
      getk st'.agents (ctxOf "w" 3).writer = none ∧
      (∀ c, (ctxOf "w" 3).writer ∉ idxGet st'.capabilityIndex c) ∧
      st'.stats.totalAgents = stSingle.stats.totalAgents - 1 ∧
      st'.matchRequests = stSingle.matchRequests ∧
      st'.matchProposals = stSingle.matchProposals ∧
      st'.channelMembers = stSingle.channelMembers ∧
      st'.reputation = stSingle.reputation) :=
  ⟨by with_unfolding_all decide,
   unregister_removes_and_frames stSingle (ctxOf "w" 3) agentW
     (by with_unfolding_all decide)
     (by intro c
         by_cases h : "x" = c <;> simp [stSingle, idxGet, getk, h])
     (by intro c hc
         by_cases h : "x" = c
         · subst h
           simp [agentW]
         · simp [stSingle, idxGet, getk, h] at hc)⟩

/-- C1 (amended): match_accept has no status guard: on a request whose
status is already accepted, a second accept by the requester naming an
existing proposal succeeds (it does not fail with RequestNotPending),
re-stamps the request as accepted with the named proposer and the new
timestamp, marks the proposal accepted, and increments the proposer's
match count again, so the view changes. -/
theorem accept_twice_succeeds (st : BridgeState) (ctx : Ctx)
    (matchId proposerId : String) (req : MatchRequest)
    (prop : MatchProposal)
    (hreq : getk st.matchRequests matchId = some req)
    (hstatus : req.status = "accepted")
    (hauth : req.requesterId = ctx.writer)
    (hprop : getk st.matchProposals (proposalKeyOf matchId proposerId) =
      some prop) :
    ∃ st', match_accept st ⟨matchId, proposerId⟩ ctx = .ok st' ∧
      getk st'.matchRequests matchId = some
        { req with status := "accepted", acceptedWith := some proposerId
                   acceptedAt := some ctx.timestamp } ∧
      getk st'.matchProposals (proposalKeyOf matchId proposerId) = some
        { prop with status := "accepted" } ∧
      (∀ pr, getk st.agents proposerId = some pr →
        getk st'.agents proposerId = some
          { pr with matchCount := pr.matchCount + 1 }) := by
  have hg : ¬(req.requesterId ≠ ctx.writer) := fun h => h hauth
  simp only [match_accept, hreq, hprop, if_neg hg]
  refine ⟨_, rfl, ?_, ?_, ?_⟩
  · rw [getk_setk, if_pos rfl]
  · rw [getk_setk, if_pos rfl]
  · intro pr hpr
    cases hw : getk st.agents ctx.writer <;>
      simp only [hw, hpr] <;> rw [getk_setk, if_pos rfl]

/-- C1 counterexample: in the replayed view stSelf the request is
already accepted, the signer is the requester and the proposal exists,
yet the second match_accept succeeds instead of failing with
RequestNotPending, and it changes the view: the agent's match count
grows from 1 to 2. -/
theorem accept_twice_counterexample :
    (getk stSelf.matchRequests "match-R-1").map (fun rq => rq.status) =
      some "accepted" ∧
    (step stSelf (.matchAccept ⟨"match-R-1", "R"⟩) (ctxOf "R" 4)).isOk
      = true ∧
    (getk stSelf.agents "R").map (fun a => a.matchCount) = some 1 ∧
    (getk (applyCommand stSelf (.matchAccept ⟨"match-R-1", "R"⟩)
      (ctxOf "R" 4)).agents "R").map (fun a => a.matchCount) = some 2 := by
  refine ⟨?_, ?_, ?_, ?_⟩ <;> with_unfolding_all decide

/-- Witness for the second-accept theorem at the replayed view. -/
theorem accept_twice_succeeds_witness :
    getk stSelf.matchRequests "match-R-1" = some
      ((getk stSelf.matchRequests "match-R-1").getD dummyRequest) ∧
    ((getk stSelf.matchRequests "match-R-1").getD dummyRequest).status =
      "accepted" ∧
    ((getk stSelf.matchRequests "match-R-1").getD dummyRequest).requesterId
      = (ctxOf "R" 4).writer ∧
    getk stSelf.matchProposals (proposalKeyOf "match-R-1" "R") = some
      ((getk stSelf.matchProposals
        (proposalKeyOf "match-R-1" "R")).getD dummyProposal) ∧
    (∃ st', match_accept stSelf ⟨"match-R-1", "R"⟩ (ctxOf "R" 4) =
        .ok st' ∧
      getk st'.matchRequests "match-R-1" = some
        { (getk stSelf.matchRequests "match-R-1").getD dummyRequest with
            status := "accepted", acceptedWith := some "R"
            acceptedAt := some (ctxOf "R" 4).timestamp } ∧
      getk st'.matchProposals (proposalKeyOf "match-R-1" "R") = some
        { (getk stSelf.matchProposals
            (proposalKeyOf "match-R-1" "R")).getD dummyProposal with
            status := "accepted" } ∧
      (∀ pr, getk stSelf.agents "R" = some pr →
        getk st'.agents "R" = some
          { pr with matchCount := pr.matchCount + 1 })) :=
  ⟨eq_some_getD _ _ (by with_unfolding_all decide),
   by with_unfolding_all decide, by with_unfolding_all decide,
   eq_some_getD _ _ (by with_unfolding_all decide),
   accept_twice_succeeds stSelf (ctxOf "R" 4) "match-R-1" "R"
     ((getk stSelf.matchRequests "match-R-1").getD dummyRequest)
     ((getk stSelf.matchProposals
       (proposalKeyOf "match-R-1" "R")).getD dummyProposal)
     (eq_some_getD _ _ (by with_unfolding_all decide))
     (by with_unfolding_all decide)
     (by with_unfolding_all decide)
     (eq_some_getD _ _ (by with_unfolding_all decide))⟩

/-- C3: every domain error is raised before any write: whenever a step
of any transition handler returns an error, the applied view equals the
input view; and in particular a proposal against an existing request
whose expiry lies strictly before the command timestamp fails with
RequestExpired and leaves the proposal map unchanged. -/
theorem error_implies_unchanged (st : BridgeState) (ctx : Ctx) :
    (∀ cmd e, step st cmd ctx = .error e → applyCommand st cmd ctx = st) ∧
    (∀ p req, getk st.matchRequests p.matchId = some req →
      req.expiresAt < ctx.timestamp →
      step st (.matchPropose p) ctx = .error .requestExpired ∧
      (applyCommand st (.matchPropose p) ctx).matchProposals =
        st.matchProposals) := by
  constructor
  · intro cmd e h
    unfold applyCommand
    rw [h]
  · intro p req hreq hexp
    have hstep : step st (.matchPropose p) ctx = .error .requestExpired := by
      simp only [step, match_propose, hreq, if_pos hexp]
    refine ⟨hstep, ?_⟩
    unfold applyCommand
    rw [hstep]

/-- Witness for the error-atomicity theorem: a proposal against the
expired request of the replayed view stReq at time 1001. -/
theorem error_implies_unchanged_witness :
    getk stReq.matchRequests "match-Q-0" = some
      ((getk stReq.matchRequests "match-Q-0").getD dummyRequest) ∧
    ((getk stReq.matchRequests "match-Q-0").getD dummyRequest).expiresAt <
      (ctxOf "P" 1001).timestamp ∧
    (step stReq (.matchPropose ⟨"match-Q-0", 1, []⟩) (ctxOf "P" 1001) =
        .error .requestExpired ∧
      (applyCommand stReq (.matchPropose ⟨"match-Q-0", 1, []⟩)
        (ctxOf "P" 1001)).matchProposals = stReq.matchProposals) :=
  ⟨eq_some_getD _ _ (by with_unfolding_all decide),
   by with_unfolding_all decide,
   (error_implies_unchanged stReq (ctxOf "P" 1001)).2
     ⟨"match-Q-0", 1, []⟩
     ((getk stReq.matchRequests "match-Q-0").getD dummyRequest)
     (eq_some_getD _ _ (by with_unfolding_all decide))
     (by with_unfolding_all decide)⟩

/-- C6 (amended): match_create fails with EmptyCapabilitySet exactly
when the required-capability list is empty; otherwise it succeeds and
stores a pending request whose expiry is the timestamp plus one
thousand times the time-to-live (the handler multiplies the ttl by
1000), not the timestamp plus the ttl. -/
theorem create_spec (st : BridgeState) (p : CreatePayload) (ctx : Ctx) :
    (match_create st p ctx = .error .emptyCapabilitySet ↔
      p.requiredCapabilities = []) ∧
    (p.requiredCapabilities ≠ [] →
      ∃ st', match_create st p ctx = .ok st' ∧
        (getk st'.matchRequests (mkMatchId ctx)).map
          (fun rq => (rq.status, rq.expiresAt, rq.createdAt,
            rq.requesterId)) =
        some ("pending", ctx.timestamp + (p.ttl.getD 300) * 1000,
          ctx.timestamp, ctx.writer)) := by
  constructor
  · constructor
    · intro h
      by_contra hne
      unfold match_create at h
      rw [if_neg hne] at h
      simp at h
    · intro h
      unfold match_create
      rw [if_pos h]
  · intro h
    unfold match_create
    rw [if_neg h]
    refine ⟨_, rfl, ?_⟩
    rw [getk_setk, if_pos rfl]
    rfl

/-- C6 counterexample: the replayed request created at timestamp 0 with
time-to-live 1 has stored expiry 0 + 1 * 1000 = 1000, not 0 + 1. -/
theorem create_expiry_counterexample :
    (getk stReq.matchRequests "match-Q-0").map (fun rq => rq.expiresAt) =
      some (0 + 1 * 1000) ∧
    (0 + 1 * 1000 : Int) ≠ 0 + 1 := by
  constructor
  · with_unfolding_all decide
  · decide

/-- Witness for the creation theorem at a concrete payload. -/
theorem create_spec_witness :
    (["x"] : List String) ≠ [] ∧
    (∃ st', match_create initialState ⟨["x"], none, none, none, []⟩
        (ctxOf "Q" 0) = .ok st' ∧
      (getk st'.matchRequests (mkMatchId (ctxOf "Q" 0))).map
        (fun rq => (rq.status, rq.expiresAt, rq.createdAt,
          rq.requesterId)) =
      some ("pending", (ctxOf "Q" 0).timestamp +
        (((⟨["x"], none, none, none, []⟩ : CreatePayload).ttl.getD 300)
          * 1000), (ctxOf "Q" 0).timestamp, (ctxOf "Q" 0).writer)) :=
  ⟨by decide,
   (create_spec initialState ⟨["x"], none, none, none, []⟩
     (ctxOf "Q" 0)).2 (by decide)⟩

/-- C7 (amended): registration succeeds or fails on name grounds only
(empty name or duplicate), never because of a proficiency value, and
likewise update fails only for an unregistered signer; each stored
capability is produced by the register/update capability mapping, which
stores min(1, max(0, p)) whenever the payload proficiency p is a
nonzero number.  A numeric proficiency of exactly zero falls through
the or-default idiom to one half instead of clamping to zero (see the
counterexample). -/
theorem proficiency_clamped (st : BridgeState) (ctx : Ctx) :
    (∀ p : RegisterPayload,
      ((agent_register st p ctx).isOk = true ↔
        (p.name ≠ "" ∧
          ¬(((valuesOf st.agents).any fun a => a.name == p.name) = true))) ∧
      (∀ st', agent_register st p ctx = .ok st' →
        ∀ a, getk st'.agents ctx.writer = some a →
          a.capabilities = p.capabilities.map (regCapability ctx))) ∧
    (∀ c : CapInput, ∀ q : ℚ, c.proficiency = some q → q ≠ 0 →
      (regCapability ctx c).proficiency = min 1 (max 0 q) ∧
      (updCapability c).proficiency = min 1 (max 0 q)) ∧
    (∀ p : UpdatePayload,
      ((agent_update st p ctx).isOk = true ↔
        (getk st.agents ctx.writer).isSome = true) ∧
      (∀ caps st', p.capabilities = some caps →
        agent_update st p ctx = .ok st' →
        ∀ a, getk st'.agents ctx.writer = some a →
          a.capabilities = caps.map updCapability)) := by
  refine ⟨?_, ?_, ?_⟩
  · intro p
    constructor
    · unfold agent_register
      by_cases h1 : p.name = ""
      · simp [h1, Except.isOk, Except.toBool]
      · by_cases h2 : ((valuesOf st.agents).any fun a => a.name == p.name)
            = true
        · simp [h1, h2, Except.isOk, Except.toBool]
        · simp [h1, h2, Except.isOk, Except.toBool]
    · intro st' hreg a hga
      unfold agent_register at hreg
      by_cases h1 : p.name = ""
      · rw [if_pos h1] at hreg; simp at hreg
      · rw [if_neg h1] at hreg
        by_cases h2 : ((valuesOf st.agents).any fun a => a.name == p.name)
            = true
        · rw [if_pos h2] at hreg; simp at hreg
        · rw [if_neg h2] at hreg
          simp only [Except.ok.injEq] at hreg
          subst hreg
          rw [getk_setk, if_pos rfl] at hga
          injection hga with hga
          subst hga
          rfl
  · intro c q hc hq
    constructor <;>
      simp [regCapability, updCapability, clamp01, jsNumOr, hc, hq]
  · intro p
    constructor
    · unfold agent_update
      cases hg : getk st.agents ctx.writer with
      | none => simp [Except.isOk, Except.toBool]
      | some a0 => cases hpc : p.capabilities <;> simp [Except.isOk, Except.toBool]
    · intro caps st' hpc hupd a hga
      unfold agent_update at hupd
      cases hg : getk st.agents ctx.writer with
      | none => rw [hg] at hupd; simp at hupd
      | some a0 =>
        rw [hg, hpc] at hupd
        simp only [Except.ok.injEq] at hupd
        subst hupd
        rw [getk_setk, if_pos rfl] at hga
        injection hga with hga
        subst hga
        simp [applyEndpointUpd_capabilities, applyVisibilityUpd_capabilities]

/-- C7 counterexample: registering a capability whose numeric
proficiency is 0 stores proficiency one half, not min(1, max(0, 0))
which is 0: the or-default idiom treats the number 0 as absent. -/
theorem proficiency_zero_counterexample :
    (getk stProfZero.agents "w").map
      (fun a => a.capabilities.map (fun cp => cp.proficiency)) =
        some [1 / 2] ∧
    (1 / 2 : ℚ) ≠ min 1 (max 0 0) := by
  constructor
  · with_unfolding_all decide
  · with_unfolding_all decide

/-- Witness for the proficiency theorem: an out-of-range proficiency 3
is clamped to min 1 (max 0 3) by both capability mappings. -/
theorem proficiency_clamped_witness :
    (CapInput.mk "x" (some 3) false).proficiency = some 3 ∧ (3 : ℚ) ≠ 0 ∧
    ((regCapability (ctxOf "w" 0) ⟨"x", some 3, false⟩).proficiency =
        min 1 (max 0 3) ∧
      (updCapability ⟨"x", some 3, false⟩).proficiency =
        min 1 (max 0 3)) :=
  ⟨rfl, by with_unfolding_all decide,
   (proficiency_clamped initialState (ctxOf "w" 0)).2.1
     ⟨"x", some 3, false⟩ 3 rfl (by with_unfolding_all decide)⟩

/-- C10: match_complete is guarded only by the existence of the match
request: for every signer (registered or not, authorized or not) and
every request status, completed included, it succeeds; and when the
payload carries a truthy rating and the request a truthy accepted
party, the target's stored rating list grows by exactly one record, so
repeated completions keep appending. -/
theorem complete_unguarded (st : BridgeState) (p : CompletePayload)
    (ctx : Ctx) (req : MatchRequest)
    (hreq : getk st.matchRequests p.matchId = some req) :
    (match_complete st p ctx).isOk = true ∧
    (ratingGiven p.rating = true → partyGiven req.acceptedWith = true →
      ∀ st', match_complete st p ctx = .ok st' →
        ∃ rep', getk st'.reputation (completeTarget req ctx) = some rep' ∧
          rep'.ratings.length =
            ((getk st.reputation (completeTarget req ctx)).getD
              dummyReputation).ratings.length + 1) := by
  constructor
  · by_cases hb : (ratingGiven p.rating && partyGiven req.acceptedWith)
        = true
    · simp [match_complete, hreq, hb, Except.isOk, Except.toBool]
    · simp [match_complete, hreq, hb, Except.isOk, Except.toBool]
  · intro hr hp st' hok
    have hb : (ratingGiven p.rating && partyGiven req.acceptedWith)
        = true := by rw [hr, hp]; rfl
    simp only [match_complete, hreq, hb, if_pos] at hok
    simp only [Except.ok.injEq] at hok
    subst hok
    exact ⟨_, by rw [getk_setk, if_pos rfl], by simp [dummyReputation]⟩

/-- Witness for the unguarded-completion theorem: the request of
stCompleted already has status completed, the signer S has no agent
entry and is neither requester nor accepted party, yet a further
completion succeeds and appends one more rating record. -/
theorem complete_unguarded_witness :
    getk stCompleted.matchRequests "match-R-1" = some
      ((getk stCompleted.matchRequests "match-R-1").getD dummyRequest) ∧
    ((getk stCompleted.matchRequests "match-R-1").getD dummyRequest).status
      = "completed" ∧
    (getk stCompleted.agents "S") = none ∧
    ((match_complete stCompleted ⟨"match-R-1", none, some 4, none⟩
        (ctxOf "S" 9)).isOk = true ∧
      (∃ rep', getk (applyCommand stCompleted
          (.matchComplete ⟨"match-R-1", none, some 4, none⟩)
          (ctxOf "S" 9)).reputation
          (completeTarget
            ((getk stCompleted.matchRequests "match-R-1").getD dummyRequest)
            (ctxOf "S" 9)) = some rep' ∧
        rep'.ratings.length =
          ((getk stCompleted.reputation
            (completeTarget
              ((getk stCompleted.matchRequests "match-R-1").getD
                dummyRequest)
              (ctxOf "S" 9))).getD dummyReputation).ratings.length + 1)) :=
  ⟨eq_some_getD _ _ (by with_unfolding_all decide),
   by with_unfolding_all decide,
   by with_unfolding_all decide,
   (complete_unguarded stCompleted ⟨"match-R-1", none, some 4, none⟩
       (ctxOf "S" 9)
       ((getk stCompleted.matchRequests "match-R-1").getD dummyRequest)
       (eq_some_getD _ _ (by with_unfolding_all decide))).1,
   ((complete_unguarded stCompleted ⟨"match-R-1", none, some 4, none⟩
       (ctxOf "S" 9)
       ((getk stCompleted.matchRequests "match-R-1").getD dummyRequest)
       (eq_some_getD _ _ (by with_unfolding_all decide))).2
     (by with_unfolding_all decide) (by with_unfolding_all decide)
     (applyCommand stCompleted
       (.matchComplete ⟨"match-R-1", none, some 4, none⟩) (ctxOf "S" 9))
     (by with_unfolding_all rfl))⟩

/-- C5 (amended): on completion with a truthy rating of a request with a
truthy accepted party, the rating record is appended to the reputation
of acceptedWith when the signer is the requester and to the requester
otherwise — the counter-party, except in the degenerate self-match where
requester, accepted party and signer coincide, in which case the signer
rates itself (see the counterexample); the stored averageRating is the
arithmetic mean of the full rating list provided the stored totalRatings
agreed with the list length beforehand; and the rated party's
successCount is incremented exactly when success is true and the party
is registered. -/
theorem complete_rating_spec (st : BridgeState) (p : CompletePayload)
    (ctx : Ctx) (req : MatchRequest) (aw : String) (r : ℚ)
    (hreq : getk st.matchRequests p.matchId = some req)
    (haw : req.acceptedWith = some aw) (hawne : aw ≠ "")
    (hr : p.rating = some r) (hrne : r ≠ 0)
    (hcons : ((getk st.reputation (completeTarget req ctx)).getD
        dummyReputation).totalRatings =
      ((getk st.reputation (completeTarget req ctx)).getD
        dummyReputation).ratings.length) :
    ∃ st', match_complete st p ctx = .ok st' ∧
      (ctx.writer = req.requesterId → completeTarget req ctx = aw) ∧
      (ctx.writer ≠ req.requesterId →
        completeTarget req ctx = req.requesterId) ∧
      ∃ rep', getk st'.reputation (completeTarget req ctx) = some rep' ∧
        rep'.ratings =
          ((getk st.reputation (completeTarget req ctx)).getD
            dummyReputation).ratings ++
            [⟨r, ctx.writer, p.matchId, ctx.timestamp⟩] ∧
        rep'.averageRating =
          ((rep'.ratings.map (fun rec => rec.rating)).sum) /
            (rep'.ratings.length : ℚ) ∧
        (p.success.getD true = true →
          ∀ t, getk st.agents (completeTarget req ctx) = some t →
            getk st'.agents (completeTarget req ctx) = some
              { t with successCount := t.successCount + 1 }) ∧
        (p.success.getD true = false → st'.agents = st.agents) := by
  have hrg : ratingGiven p.rating = true := by
    rw [hr]
    simp [ratingGiven, hrne]
  have hpg : partyGiven req.acceptedWith = true := by
    rw [haw]
    simp [partyGiven, hawne]
  have hb : (ratingGiven p.rating && partyGiven req.acceptedWith)
      = true := by rw [hrg, hpg]; rfl
  simp only [match_complete, hreq, hb, if_pos]
  refine ⟨_, rfl, ?_, ?_, ?_⟩
  · intro h
    unfold completeTarget
    rw [if_pos h, haw]
    rfl
  · intro h
    unfold completeTarget
    rw [if_neg h]
  · refine ⟨_, by rw [getk_setk, if_pos rfl], ?_, ?_, ?_, ?_⟩
    · simp [dummyReputation, hr]
    · simp only [dummyReputation] at hcons
      rw [hcons]
      simp [List.length_append]
    · intro hs t ht
      simp only [hs, ht]
      rw [if_pos trivial, getk_setk, if_pos rfl]
    · intro hs
      simp only [hs]
      rfl

/-- C5 counterexample: in the self-match replay the requester,
accepted proposer and completion signer are all the single writer R, so
the completion with rating 5 appends the record to R's own reputation:
the signer rates itself. -/
theorem complete_self_rating_counterexample :
    (getk stSelf.matchRequests "match-R-1").map
      (fun rq => (rq.requesterId, rq.acceptedWith)) =
        some ("R", some "R") ∧
    getk stCompleted.reputation "R" = some
      { totalRatings := 1, averageRating := 5
        ratings := [⟨5, "R", "match-R-1", 5⟩] } := by
  constructor
  · with_unfolding_all decide
  · with_unfolding_all decide

/-- Witness for the rating theorem: a third-party signer S completes
the accepted self-match of stSelf with rating 2; the target is the
requester R and the record is appended to R's (empty) history. -/
theorem complete_rating_spec_witness :
    getk stSelf.matchRequests "match-R-1" = some
      ((getk stSelf.matchRequests "match-R-1").getD dummyRequest) ∧
    ((getk stSelf.matchRequests "match-R-1").getD dummyRequest).acceptedWith
      = some "R" ∧
    ("R" : String) ≠ "" ∧
    (⟨"match-R-1", none, some 2, none⟩ : CompletePayload).rating = some 2 ∧
    (2 : ℚ) ≠ 0 ∧
    (∃ st', match_complete stSelf ⟨"match-R-1", none, some 2, none⟩
        (ctxOf "S" 7) = .ok st' ∧
      ((ctxOf "S" 7).writer =
          ((getk stSelf.matchRequests "match-R-1").getD
            dummyRequest).requesterId →
        completeTarget ((getk stSelf.matchRequests "match-R-1").getD
          dummyRequest) (ctxOf "S" 7) = "R") ∧
      ((ctxOf "S" 7).writer ≠
          ((getk stSelf.matchRequests "match-R-1").getD
            dummyRequest).requesterId →
        completeTarget ((getk stSelf.matchRequests "match-R-1").getD
          dummyRequest) (ctxOf "S" 7) =
        ((getk stSelf.matchRequests "match-R-1").getD
          dummyRequest).requesterId) ∧
      ∃ rep', getk st'.reputation
          (completeTarget ((getk stSelf.matchRequests "match-R-1").getD
            dummyRequest) (ctxOf "S" 7)) = some rep' ∧
        rep'.ratings =
          ((getk stSelf.reputation
            (completeTarget ((getk stSelf.matchRequests "match-R-1").getD
              dummyRequest) (ctxOf "S" 7))).getD
            dummyReputation).ratings ++
            [⟨2, (ctxOf "S" 7).writer, "match-R-1",
              (ctxOf "S" 7).timestamp⟩] ∧
        rep'.averageRating =
          ((rep'.ratings.map (fun rec => rec.rating)).sum) /
            (rep'.ratings.length : ℚ) ∧
        (((⟨"match-R-1", none, some 2, none⟩ :
            CompletePayload).success.getD true) = true →
          ∀ t, getk stSelf.agents
              (completeTarget ((getk stSelf.matchRequests
                "match-R-1").getD dummyRequest) (ctxOf "S" 7)) = some t →
            getk st'.agents
              (completeTarget ((getk stSelf.matchRequests
                "match-R-1").getD dummyRequest) (ctxOf "S" 7)) = some
              { t with successCount := t.successCount + 1 }) ∧
        (((⟨"match-R-1", none, some 2, none⟩ :
            CompletePayload).success.getD true) = false →
          st'.agents = stSelf.agents)) :=
  ⟨eq_some_getD _ _ (by with_unfolding_all decide),
   by with_unfolding_all decide,
   by with_unfolding_all decide,
   rfl,
   by with_unfolding_all decide,
   complete_rating_spec stSelf ⟨"match-R-1", none, some 2, none⟩
     (ctxOf "S" 7)
     ((getk stSelf.matchRequests "match-R-1").getD dummyRequest) "R" 2
     (eq_some_getD _ _ (by with_unfolding_all decide))
     (by with_unfolding_all decide)
     (by with_unfolding_all decide)
     rfl
     (by with_unfolding_all decide)
     (by with_unfolding_all decide)⟩

/-! Lemmas about the discover read path. -/

theorem values_map_id_eq_keys :
    ∀ (m : AList Agent), KeysNodup m →
      (∀ k a, getk m k = some a → a.id = k) →
      (valuesOf m).map (fun a => a.id) = m.map (fun p => p.1) := by
  intro m
  induction m with
  | nil => intro _ _; rfl
  | cons p t ih =>
      obtain ⟨k, a⟩ := p
      intro hKN hWK
      have hd : a.id = k := hWK k a (by simp [getk])
      have hKN' : KeysNodup t := (List.nodup_cons.1 hKN).2
      have hWK' : ∀ k' a', getk t k' = some a' → a'.id = k' := by
        intro k' a' h'
        have hne : k ≠ k' := by
          intro hh
          subst hh
          have hmem : k ∈ t.map (fun p => p.1) :=
            List.mem_map.2 ⟨(k, a'), getk_mem h', rfl⟩
          exact (List.nodup_cons.1 hKN).1 hmem
        exact hWK k' a' (by simp [getk, hne, h'])
      simp only [valuesOf, List.map_cons] at ih ⊢
      rw [hd, ih hKN' hWK']

theorem getk_of_mem_values {st : BridgeState} (hKN : KeysNodup st.agents)
    (hWK : WellKeyed st) {a : Agent} (ha : a ∈ valuesOf st.agents) :
    getk st.agents a.id = some a := by
  obtain ⟨k, hk⟩ := (mem_values_iff_getk hKN).1 ha
  rw [hWK k a hk]
  exact hk

theorem foldl_addUnique_ids :
    ∀ (l : List Agent) (acc : List String),
      ((l.map (fun a => a.id)).Nodup) → (∀ a ∈ l, a.id ∉ acc) →
      l.foldl (fun acc a => addUnique acc a.id) acc =
        acc ++ l.map (fun a => a.id) := by
  intro l
  induction l with
  | nil => intro acc _ _; simp
  | cons a t ih =>
      intro acc hnd hdis
      rw [List.foldl_cons]
      have ha : a.id ∉ acc := hdis a (by simp)
      have hstep : addUnique acc a.id = acc ++ [a.id] := by
        unfold addUnique
        rw [if_neg ha]
      rw [hstep, ih (acc ++ [a.id]) ?hnd' ?hdis']
      · simp
      case hnd' =>
        simp only [List.map_cons, List.nodup_cons] at hnd
        exact hnd.2
      case hdis' =>
        intro b hb
        simp only [List.map_cons, List.nodup_cons] at hnd
        rw [List.mem_append, List.mem_singleton]
        rintro (hc | hc)
        · exact hdis b (by simp [hb]) hc
        · exact hnd.1 (hc ▸ List.mem_map.2 ⟨b, hb, rfl⟩)

theorem discoverCandidates_nil (st : BridgeState)
    (hKN : KeysNodup st.agents) (hWK : WellKeyed st) :
    discoverCandidates st [] =
      ((valuesOf st.agents).filter
        (fun a => a.visibility == "public")).map (fun a => a.id) := by
  unfold discoverCandidates
  simp only [List.foldl_nil, if_pos rfl]
  have hids : ((valuesOf st.agents).map (fun a => a.id)).Nodup := by
    rw [values_map_id_eq_keys st.agents hKN hWK]
    exact hKN
  have hpub : ((((valuesOf st.agents).filter
      (fun a => a.visibility == "public")).map (fun a => a.id))).Nodup :=
    (((List.filter_sublist (valuesOf st.agents))).map
      (fun a => a.id)).nodup hids
  rw [foldl_addUnique_ids _ [] hpub (by intro a _h hc; simp at hc)]
  simp

theorem scoreAgent_nil (m : ℚ) (a : Agent) : scoreAgent [] m a = ([], 0) := by
  unfold scoreAgent
  have hgen : ∀ (l : List Capability) (acc : List String × ℚ),
      l.foldl (fun acc cap =>
        if cap.name ∈ ([] : List String) ∧ m ≤ cap.proficiency then
          (acc.1 ++ [cap.name], acc.2 + cap.proficiency)
        else acc) acc = acc := by
    intro l
    induction l with
    | nil => intro acc; rfl
    | cons c t ih =>
        intro acc
        rw [List.foldl_cons, if_neg (by simp)]
        exact ih acc
  exact hgen _ _

theorem entryFor_nil (st : BridgeState) (m : ℚ) (status : Option String)
    (a : Agent) (hga : getk st.agents a.id = some a)
    (hv : a.visibility = "public") :
    entryFor st [] m status a.id =
      if statusSkip status a then none else some (browseEntry st a) := by
  simp only [entryFor, hga]
  rw [if_neg (by rw [hv]; exact fun h => h rfl)]
  by_cases hs : statusSkip status a = true
  · rw [if_pos hs, if_pos hs]
  · rw [if_neg hs, if_neg hs, scoreAgent_nil]
    have hinc : 0 < ((([] : List String), (0 : ℚ))).1.length ∨
        ([] : List String).length = 0 := Or.inr rfl
    rw [if_pos hinc]
    simp [browseEntry]

theorem filterMap_entry_nil (st : BridgeState) (m : ℚ)
    (status : Option String) :
    ∀ (l : List Agent),
      (∀ a ∈ l, getk st.agents a.id = some a ∧ a.visibility = "public") →
      (l.map (fun a => a.id)).filterMap (entryFor st [] m status) =
        (l.filter (fun a => !(statusSkip status a))).map (browseEntry st) := by
  intro l
  induction l with
  | nil => intro _; rfl
  | cons a t ih =>
      intro h
      obtain ⟨hga, hv⟩ := h a (by simp)
      have hrest : ∀ b ∈ t, getk st.agents b.id = some b ∧
          b.visibility = "public" := fun b hb => h b (by simp [hb])
      rw [List.map_cons, List.filter_cons]
      by_cases hs : statusSkip status a = true
      · rw [List.filterMap_cons_none]
        · simp only [hs, Bool.not_true]
          rw [if_neg (by simp)]
          exact ih hrest
        · rw [entryFor_nil st m status a hga hv, if_pos hs]
      · rw [List.filterMap_cons_some (b := browseEntry st a)]
        · have hs' : (!statusSkip status a) = true := by
            simp only [Bool.not_eq_true'] at hs ⊢
            simpa using hs
          rw [if_pos hs', List.map_cons, ih hrest]
        · rw [entryFor_nil st m status a hga hv, if_neg hs]

theorem sortByScoreDesc_const (q : ℚ) :
    ∀ l : List DiscoverEntry, (∀ e ∈ l, e.matchScore = q) →
      sortByScoreDesc l = l := by
  intro l
  induction l with
  | nil => intro _; rfl
  | cons x xs ih =>
      intro h
      show insertDesc x (sortByScoreDesc xs) = x :: xs
      rw [ih (fun e he => h e (by simp [he]))]
      cases xs with
      | nil => rfl
      | cons y ys =>
          unfold insertDesc
          rw [if_pos]
          rw [h y (by simp), h x (by simp)]

/-- C4 (amended): with an empty capability list, discover returns every
public agent (in map insertion order, subject only to the optional
status filter and the truncation to limit), and every returned row
carries match score one half, not one, regardless of the agents'
capability content or the proficiency floor. -/
theorem discover_browse_all (st : BridgeState) (cats : List String)
    (m : ℚ) (status : Option String) (limit : Nat)
    (hKN : KeysNodup st.agents) (hWK : WellKeyed st) :
    discover st [] cats m status limit =
      { agents := (browseList st status).take limit
        total := (browseList st status).length } ∧
    (∀ e ∈ (discover st [] cats m status limit).agents,
      e.matchScore = 1 / 2) := by
  have hraw : discoverRawResults st [] m status = browseList st status := by
    unfold discoverRawResults browseList
    rw [discoverCandidates_nil st hKN hWK]
    apply filterMap_entry_nil
    intro a ha
    have ha' := List.mem_filter.1 ha
    refine ⟨getk_of_mem_values hKN hWK ha'.1, ?_⟩
    have := ha'.2
    simpa using this
  have hsc : ∀ e ∈ browseList st status, e.matchScore = 1 / 2 := by
    intro e he
    obtain ⟨a, _, rfl⟩ := List.mem_map.1 he
    rfl
  have hsorted : sortByScoreDesc (discoverRawResults st [] m status) =
      browseList st status := by
    rw [hraw]
    exact sortByScoreDesc_const (1 / 2) _ hsc
  constructor
  · unfold discover
    rw [hsorted]
  · intro e he
    unfold discover at he
    rw [hsorted] at he
    exact hsc e (List.take_subset _ _ he)

/-- C4 counterexample: in the single-agent view, discover with an empty
capability list returns the agent with match score one half, not one. -/
theorem discover_browse_score_counterexample :
    ((discover stSingle [] [] 0 none 20).agents.map
      (fun e => e.matchScore)) = [1 / 2] ∧ (1 / 2 : ℚ) ≠ 1 := by
  constructor
  · with_unfolding_all decide
  · with_unfolding_all decide

/-- Witness for the browse-all theorem at the single-agent view. -/
theorem discover_browse_all_witness :
    KeysNodup stSingle.agents ∧ WellKeyed stSingle ∧
    (discover stSingle [] [] 0 none 20 =
      { agents := (browseList stSingle none).take 20
        total := (browseList stSingle none).length } ∧
    (∀ e ∈ (discover stSingle [] [] 0 none 20).agents,
      e.matchScore = 1 / 2)) :=
  have hWK : WellKeyed stSingle := by
    intro k a h
    by_cases hk : "w" = k
    · subst hk
      simp only [stSingle, getk, if_pos rfl] at h
      injection h with h
      subst h
      rfl
    · simp [stSingle, getk, hk] at h
  ⟨by unfold KeysNodup; with_unfolding_all decide, hWK,
   discover_browse_all stSingle [] 0 none 20
     (by unfold KeysNodup; with_unfolding_all decide) hWK⟩

/-! Monotonicity of discover in the proficiency floor. -/

theorem filter_sublist_filter {α : Type} (p q : α → Bool)
    (h : ∀ x, p x = true → q x = true) :
    ∀ l : List α, List.Sublist (l.filter p) (l.filter q) := by
  intro l
  induction l with
  | nil => simp
  | cons a t ih =>
      rw [List.filter_cons, List.filter_cons]
      by_cases hp : p a = true
      · rw [if_pos hp, if_pos (h a hp)]
        exact ih.cons₂ a
      · rw [if_neg hp]
        by_cases hq : q a = true
        · rw [if_pos hq]
          exact ih.cons a
        · rw [if_neg hq]
          exact ih

theorem scoreAgent_eq_filter (caps : List String) (m : ℚ) (a : Agent) :
    scoreAgent caps m a =
      ((a.capabilities.filter
          (fun cp => decide (cp.name ∈ caps ∧ m ≤ cp.proficiency))).map
        (fun cp => cp.name),
       ((a.capabilities.filter
          (fun cp => decide (cp.name ∈ caps ∧ m ≤ cp.proficiency))).map
        (fun cp => cp.proficiency)).sum) := by
  unfold scoreAgent
  have hgen : ∀ (l : List Capability) (acc : List String × ℚ),
      l.foldl (fun acc cap =>
        if cap.name ∈ caps ∧ m ≤ cap.proficiency then
          (acc.1 ++ [cap.name], acc.2 + cap.proficiency)
        else acc) acc =
      (acc.1 ++ ((l.filter
          (fun cp => decide (cp.name ∈ caps ∧ m ≤ cp.proficiency))).map
        (fun cp => cp.name)),
       acc.2 + ((l.filter
          (fun cp => decide (cp.name ∈ caps ∧ m ≤ cp.proficiency))).map
        (fun cp => cp.proficiency)).sum) := by
    intro l
    induction l with
    | nil => intro acc; simp
    | cons c t ih =>
        intro acc
        rw [List.foldl_cons, List.filter_cons]
        by_cases hc : c.name ∈ caps ∧ m ≤ c.proficiency
        · rw [if_pos hc, ih, if_pos (by simpa using hc)]
          simp [add_assoc]
        · rw [if_neg hc, ih, if_neg (by simpa using hc)]
  rw [hgen]
  simp

theorem scoreAgent_matched_mono (caps : List String) {m1 m2 : ℚ}
    (h : m1 ≤ m2) (a : Agent) :
    0 < (scoreAgent caps m2 a).1.length →
    0 < (scoreAgent caps m1 a).1.length := by
  rw [scoreAgent_eq_filter, scoreAgent_eq_filter]
  intro h2
  have hsub : List.Sublist
      (a.capabilities.filter
        (fun cp => decide (cp.name ∈ caps ∧ m2 ≤ cp.proficiency)))
      (a.capabilities.filter
        (fun cp => decide (cp.name ∈ caps ∧ m1 ≤ cp.proficiency))) := by
    apply filter_sublist_filter
    intro cp hcp
    simp only [decide_eq_true_eq] at hcp ⊢
    exact ⟨hcp.1, le_trans h hcp.2⟩
  have hlen := hsub.length_le
  simp only [List.length_map] at h2 ⊢
  exact lt_of_lt_of_le h2 hlen

theorem entryFor_mono (st : BridgeState) (caps : List String)
    (status : Option String) {m1 m2 : ℚ} (h : m1 ≤ m2) (agentId : String)
    {e2 : DiscoverEntry}
    (h2 : entryFor st caps m2 status agentId = some e2) :
    ∃ e1, entryFor st caps m1 status agentId = some e1 ∧
      e1.id = e2.id := by
  unfold entryFor at h2 ⊢
  cases hg : getk st.agents agentId with
  | none => rw [hg] at h2; simp at h2
  | some agent =>
      simp only [hg] at h2 ⊢
      by_cases hv : agent.visibility ≠ "public"
      · rw [if_pos hv] at h2
        simp at h2
      · rw [if_neg hv] at h2 ⊢
        by_cases hs : statusSkip status agent = true
        · rw [if_pos hs] at h2
          simp at h2
        · rw [if_neg hs] at h2 ⊢
          by_cases hinc : 0 < (scoreAgent caps m2 agent).1.length ∨
              caps.length = 0
          · rw [if_pos hinc] at h2
            injection h2 with h2
            have hinc1 : 0 < (scoreAgent caps m1 agent).1.length ∨
                caps.length = 0 := by
              rcases hinc with hl | hl
              · exact Or.inl (scoreAgent_matched_mono caps h agent hl)
              · exact Or.inr hl
            rw [if_pos hinc1]
            exact ⟨_, rfl, by rw [← h2]⟩
          · rw [if_neg hinc] at h2
            simp at h2

theorem filterMap_length_mono {α β : Type} (f g : α → Option β) :
    ∀ l : List α, (∀ x ∈ l, (g x).isSome = true → (f x).isSome = true) →
      (l.filterMap g).length ≤ (l.filterMap f).length := by
  intro l
  induction l with
  | nil => intro _; simp
  | cons a t ih =>
      intro h
      have hrest : ∀ x ∈ t, (g x).isSome = true → (f x).isSome = true :=
        fun x hx => h x (by simp [hx])
      cases hga : g a with
      | none =>
          rw [List.filterMap_cons_none hga]
          cases hfa : f a with
          | none =>
              rw [List.filterMap_cons_none hfa]
              exact ih hrest
          | some b =>
              rw [List.filterMap_cons_some hfa]
              exact le_trans (ih hrest) (by simp)
      | some b =>
          have hfa : (f a).isSome = true := h a (by simp) (by simp [hga])
          cases hfa' : f a with
          | none => rw [hfa'] at hfa; simp at hfa
          | some c =>
              rw [List.filterMap_cons_some hga,
                List.filterMap_cons_some hfa']
              simpa using ih hrest

theorem length_insertDesc (x : DiscoverEntry) :
    ∀ l : List DiscoverEntry, (insertDesc x l).length = l.length + 1 := by
  intro l
  induction l with
  | nil => rfl
  | cons y ys ih =>
      unfold insertDesc
      by_cases hc : y.matchScore ≤ x.matchScore
      · rw [if_pos hc]
        rfl
      · rw [if_neg hc]
        simp [ih]

theorem length_sortByScoreDesc :
    ∀ l : List DiscoverEntry, (sortByScoreDesc l).length = l.length := by
  intro l
  induction l with
  | nil => rfl
  | cons x xs ih =>
      show (insertDesc x (sortByScoreDesc xs)).length = xs.length + 1
      rw [length_insertDesc, ih]

theorem mem_insertDesc (x e : DiscoverEntry) :
    ∀ l : List DiscoverEntry, (e ∈ insertDesc x l ↔ e = x ∨ e ∈ l) := by
  intro l
  induction l with
  | nil => simp [insertDesc]
  | cons y ys ih =>
      unfold insertDesc
      by_cases hc : y.matchScore ≤ x.matchScore
      · rw [if_pos hc]
        simp
      · rw [if_neg hc]
        simp only [List.mem_cons, ih]
        tauto

theorem mem_sortByScoreDesc (e : DiscoverEntry) :
    ∀ l : List DiscoverEntry, (e ∈ sortByScoreDesc l ↔ e ∈ l) := by
  intro l
  induction l with
  | nil => simp [sortByScoreDesc]
  | cons x xs ih =>
      show e ∈ insertDesc x (sortByScoreDesc xs) ↔ _
      rw [mem_insertDesc, ih]
      simp [eq_comm]

/-- C8 (amended): for a fixed query, raising the proficiency floor from
m1 to m2 never grows discovery results: every agent id present in the
untruncated result list at floor m2 is present at floor m1, and both the
reported total and the number of returned rows never increase.  After
truncation to limit the returned row set need not be a subset of the one
at the lower floor (see the counterexample). -/
theorem discover_minProficiency_monotone (st : BridgeState)
    (caps cats : List String) (status : Option String) (limit : Nat)
    (m1 m2 : ℚ) (h12 : m1 ≤ m2) :
    (∀ i, i ∈ (discoverRawResults st caps m2 status).map (fun e => e.id) →
      i ∈ (discoverRawResults st caps m1 status).map (fun e => e.id)) ∧
    (discover st caps cats m2 status limit).total ≤
      (discover st caps cats m1 status limit).total ∧
    (discover st caps cats m2 status limit).agents.length ≤
      (discover st caps cats m1 status limit).agents.length := by
  have hlen : (discoverRawResults st caps m2 status).length ≤
      (discoverRawResults st caps m1 status).length := by
    unfold discoverRawResults
    apply filterMap_length_mono
    intro x _ hx
    cases hg2 : entryFor st caps m2 status x with
    | none => rw [hg2] at hx; simp at hx
    | some e2 =>
        obtain ⟨e1, he1, _⟩ := entryFor_mono st caps status h12 x hg2
        rw [he1]
        rfl
  refine ⟨?_, ?_, ?_⟩
  · intro i hi
    obtain ⟨e2, he2, rfl⟩ := List.mem_map.1 hi
    unfold discoverRawResults at he2
    obtain ⟨x, hx, hfe⟩ := List.mem_filterMap.1 he2
    obtain ⟨e1, he1, hid⟩ := entryFor_mono st caps status h12 x hfe
    refine List.mem_map.2 ⟨e1, ?_, hid⟩
    unfold discoverRawResults
    exact List.mem_filterMap.2 ⟨x, hx, he1⟩
  · show (sortByScoreDesc _).length ≤ (sortByScoreDesc _).length
    rw [length_sortByScoreDesc, length_sortByScoreDesc]
    exact hlen
  · show ((sortByScoreDesc _).take limit).length ≤
      ((sortByScoreDesc _).take limit).length
    rw [List.length_take, List.length_take,
      length_sortByScoreDesc, length_sortByScoreDesc]
    exact min_le_min (le_refl limit) hlen

/-- C8 counterexample: with limit 1 on the two-agent view stPair, the
query for x, y, z at floor 0 returns agent A while the same query at the
higher floor nine twentieths returns agent B, so the truncated result
set at the higher floor is not a subset of the one at the lower floor. -/
theorem discover_limit_not_subset_counterexample :
    (0 : ℚ) ≤ 9 / 20 ∧
    ((discover stPair ["x", "y", "z"] [] (9 / 20) none 1).agents.map
      (fun e => e.id)) = ["B"] ∧
    ((discover stPair ["x", "y", "z"] [] 0 none 1).agents.map
      (fun e => e.id)) = ["A"] := by
  refine ⟨?_, ?_, ?_⟩ <;> with_unfolding_all decide

/-- Witness for the monotonicity theorem at the two-agent view. -/
theorem discover_minProficiency_monotone_witness :
    (0 : ℚ) ≤ 9 / 20 ∧
    ((∀ i, i ∈ (discoverRawResults stPair ["x", "y", "z"] (9 / 20)
        none).map (fun e => e.id) →
      i ∈ (discoverRawResults stPair ["x", "y", "z"] 0 none).map
        (fun e => e.id)) ∧
    (discover stPair ["x", "y", "z"] [] (9 / 20) none 5).total ≤
      (discover stPair ["x", "y", "z"] [] 0 none 5).total ∧
    (discover stPair ["x", "y", "z"] [] (9 / 20) none 5).agents.length ≤
      (discover stPair ["x", "y", "z"] [] 0 none 5).agents.length) :=
  ⟨by with_unfolding_all decide,
   discover_minProficiency_monotone stPair ["x", "y", "z"] [] none 5
     0 (9 / 20) (by with_unfolding_all decide)⟩
